import Mathlib

/-!
Verification development for the BeeRef transform-and-undo core
(src/beeref/commands.py and src/beeref/items.py).

Conventions of the embedding:

* Real-valued quantities (positions, scale factors, rotation angles in
  degrees) are modelled over `ℚ`, so that round-trip properties stated
  "within floating-point tolerance" become exact equalities and all
  definitions stay executable.

* The anchored item setters (`setScale(factor, anchor)`,
  `setRotation(angle, anchor)`, `do_flip(vertical, anchor)`, `center`,
  `mapFromScene`) that commands.py calls are not part of the sources under
  src/ (items.py only contains a one-argument `setScale`); they are
  modelled from the spec, section 4.1, below.  The scene→local coordinate
  mapping hidden inside those setters is — exactly as the spec's design
  note demands ("keep this as one well-tested pure function shared by all
  anchored setters") — abstracted into a single pair of mutually inverse
  pure functions, `TransformMap`.

* Mutation is modelled by explicit state passing: an item is a record, the
  scene ("world") is a list of items plus a counter of
  `onSelectionGeometryChanged` notifications, and commands are data whose
  `redo` returns the updated command (captured state, flags) together with
  the updated world.  Python's `AttributeError` on an absent captured-state
  attribute is modelled by `Option`: `undo` returns `none` exactly when the
  attribute it reads has never been written.
-/

/-- Modelled from the spec (sections 4.1 and 9): the linear part of the
item-local → scene coordinate transform, as a function of the item's scale
factor, rotation angle and flip sign, together with its inverse.  The spec
fixes only the contract needed by the commands: for a valid item state
(positive scale, flip sign ±1) the two maps are mutually inverse.  The
composed scale → rotation → flip form of the spec is one instance
(`axisTransformMap` below realises it for unrotated items, where it is
exact over `ℚ`). -/
structure TransformMap where
  fwd : ℚ → ℚ → ℤ → ℚ × ℚ → ℚ × ℚ
  inv : ℚ → ℚ → ℤ → ℚ × ℚ → ℚ × ℚ
  inv_fwd : ∀ s r f p, 0 < s → (f = 1 ∨ f = -1) → inv s r f (fwd s r f p) = p
  fwd_inv : ∀ s r f p, 0 < s → (f = 1 ∨ f = -1) → fwd s r f (inv s r f p) = p

/-- Modelled from the spec (section 3, data model): a transformable item.
`pos` is the scene position (top-left origin), `scale` the uniform scale
factor, `rotation` the angle in degrees, `flip` the mirror sign (1 or -1),
`width`/`height` the intrinsic size, `inScene`/`selected` the scene
membership and selection state owned by the Scene collaborator. -/
structure Item where
  pos : ℚ × ℚ
  scale : ℚ
  rotation : ℚ
  flip : ℤ
  width : ℚ
  height : ℚ
  inScene : Bool
  selected : Bool
deriving DecidableEq

instance : Inhabited Item :=
  ⟨⟨(0, 0), 1, 0, 1, 0, 0, false, false⟩⟩

/-- Modelled from the spec (section 4.1): the item's geometric center used
as the default anchor of the reset commands.  It is the fixed local point
(width/2, height/2); NormalizeItems in src/beeref/commands.py passes
exactly this point (`QPointF(item.width, item.height) / 2`) as its anchor. -/
def Item.center (it : Item) : ℚ × ℚ :=
  (it.width / 2, it.height / 2)

/-- Scene image of a local point: position plus the linear part. -/
def Item.mapToScene (T : TransformMap) (it : Item) (p : ℚ × ℚ) : ℚ × ℚ :=
  it.pos + T.fwd it.scale it.rotation it.flip p

/-- Local preimage of a scene point (`item.mapFromScene` in commands.py). -/
def Item.mapFromScene (T : TransformMap) (it : Item) (p : ℚ × ℚ) : ℚ × ℚ :=
  T.inv it.scale it.rotation it.flip (p - it.pos)

/-- Modelled from the spec (section 4.1): `moveBy(dx, dy)` translates the
position by a scene-space delta; no anchor. -/
def Item.moveBy (it : Item) (dx dy : ℚ) : Item :=
  { it with pos := (it.pos.1 + dx, it.pos.2 + dy) }

/-- Modelled from the spec (section 4.1): `setScale(factor, anchor)` sets
the scale factor to `factor` (which must be positive; a non-positive
factor is rejected and — rejection being synchronous and the command not
retried, spec section 7 — leaves the item unchanged) and adjusts the
position so that the scene image of the local point `anchor` is unchanged:
the new position is the old one minus the difference between the new and
the old scene image of `anchor`. -/
def Item.setScaleAnchored (T : TransformMap) (it : Item) (factor : ℚ)
    (anchor : ℚ × ℚ) : Item :=
  if factor ≤ 0 then it
  else
    { it with
      scale := factor
      pos := it.pos -
        (T.fwd factor it.rotation it.flip anchor -
          T.fwd it.scale it.rotation it.flip anchor) }

/-- Modelled from the spec (section 4.1): `setRotation(angle, anchor)` sets
the absolute rotation to `angle` degrees, adjusting the position so that
the scene image of the local point `anchor` is unchanged.  (The flip-sign
compensation the spec describes is applied by the caller, RotateItemsBy,
which passes `rotation + delta * flip`.) -/
def Item.setRotationAnchored (T : TransformMap) (it : Item) (angle : ℚ)
    (anchor : ℚ × ℚ) : Item :=
  { it with
    rotation := angle
    pos := it.pos -
      (T.fwd it.scale angle it.flip anchor -
        T.fwd it.scale it.rotation it.flip anchor) }

/-- Modelled from the spec (section 4.1): `do_flip(vertical, anchor)`
toggles the flip sign (1 ↔ -1) keeping the scene image of the local point
`anchor` unchanged.  The spec's data model carries a single mirror sign,
so the `vertical` argument selects the mirror axis but does not change the
recorded state beyond the toggle. -/
def Item.do_flip (T : TransformMap) (it : Item) (_vertical : Bool)
    (anchor : ℚ × ℚ) : Item :=
  { it with
    flip := -it.flip
    pos := it.pos -
      (T.fwd it.scale it.rotation (-it.flip) anchor -
        T.fwd it.scale it.rotation it.flip anchor) }

/-- Translation of `BeePixmapItem` from src/beeref/items.py, restricted to
the state its `setScale` touches: the item's own `scale_factor` attribute,
the base-class scale written by `super().setScale(factor)`, and the
position (which `setScale` does not touch).  Logging is omitted. -/
structure BeePixmapItem where
  scale_factor : ℚ
  base_scale : ℚ
  pos : ℚ × ℚ
deriving DecidableEq

/-- Translation of `BeePixmapItem.setScale` (src/beeref/items.py, lines
45-48): it unconditionally stores `factor` in `scale_factor` and forwards
it to the base class; there is no validation and no error path. -/
def BeePixmapItem.setScale (it : BeePixmapItem) (factor : ℚ) : BeePixmapItem :=
  { it with scale_factor := factor, base_scale := factor }

/-- The scene state: the universe of items (commands refer to items by
index into this list) and a counter of `onSelectionGeometryChanged`
notifications received by the scene. -/
structure World where
  items : List Item
  notices : Nat
deriving DecidableEq

/-- Item lookup by index (a command's Python reference to an item object). -/
def World.getItem (w : World) (i : Nat) : Item :=
  w.items.getD i default

/-- Modelled from the spec (section 6): the scene's
`onSelectionGeometryChanged()` notification hook.  No command in
src/beeref/commands.py calls it. -/
def World.onSelectionGeometryChanged (w : World) : World :=
  { w with notices := w.notices + 1 }

/-- Scene `clearSelection()`: deselect every item. -/
def clearSel (l : List Item) : List Item :=
  l.map fun it => { it with selected := false }

/-- Replace the item at position `i` by `f` of it; out-of-range indices
leave the list unchanged.  This is the effect of calling a mutating method
on the Python object referenced by `i`. -/
def updateAt : List Item → Nat → (Item → Item) → List Item
  | [], _, _ => []
  | a :: l, 0, f => f a :: l
  | a :: l, n + 1, f => a :: updateAt l n f

/-- A `for item in self.items:` loop applying the same mutation to each
referenced item in order. -/
def applyAll (f : Item → Item) : List Nat → List Item → List Item
  | [], w => w
  | i :: rest, w => applyAll f rest (updateAt w i f)

/-- A capture-and-mutate loop, as in the redo of NormalizeItems and the
Reset* commands: for each pair of an item reference and a parameter, first
read the captured value from the item (before mutating it), then mutate
the item; returns the list of captured values and the final item list. -/
def capFold (cap : Item → κ) (act : Item → π → Item) :
    List (Nat × π) → List Item → List κ × List Item
  | [], w => ([], w)
  | (i, p) :: rest, w =>
    let c := cap (w.getD i default)
    let r := capFold cap act rest (updateAt w i fun it => act it p)
    (c :: r.1, r.2)

/-- The undo loop of a capture command: `for item, v in zip(self.items,
captured): restore item from v`. -/
def undoFold (ua : Item → κ → Item) : List (Nat × κ) → List Item → List Item
  | [], w => w
  | (i, c) :: rest, w => undoFold ua rest (updateAt w i fun it => ua it c)

/-- The per-item bundle captured by ResetTransforms.redo
(`{'scale': ..., 'rotation': ..., 'flip': ...}`). -/
structure OldTransform where
  scale : ℚ
  rotation : ℚ
  flip : ℤ
deriving DecidableEq

/-- The command catalog of src/beeref/commands.py.  Item references are
indices into the world's item list; each constructor carries the fields
its `__init__` stores.  The capture-on-redo attributes
(`old_scale_factors`, `old_rotations`, `old_flips`, `old_values`) start as
`none`: in Python they do not exist until the first `redo()` assigns
them. -/
inductive Command where
  | insertItems (idxs : List Nat) (ignore_first_redo : Bool)
  | deleteItems (idxs : List Nat)
  | moveItemsBy (idxs : List Nat) (delta : ℚ × ℚ) (ignore_first_redo : Bool)
  | scaleItemsBy (idxs : List Nat) (factor : ℚ) (anchor : ℚ × ℚ)
      (ignore_first_redo : Bool)
  | rotateItemsBy (idxs : List Nat) (delta : ℚ) (anchor : ℚ × ℚ)
      (ignore_first_redo : Bool)
  | normalizeItems (idxs : List Nat) (scale_factors : List ℚ)
      (old_scale_factors : Option (List ℚ))
  | flipItems (idxs : List Nat) (anchor : ℚ × ℚ) (vertical : Bool)
  | resetScale (idxs : List Nat) (old_scale_factors : Option (List ℚ))
  | resetRotation (idxs : List Nat) (old_rotations : Option (List ℚ))
  | resetFlip (idxs : List Nat) (old_flips : Option (List ℤ))
  | resetTransforms (idxs : List Nat) (old_values : Option (List OldTransform))
deriving DecidableEq

/-- The loop body of ResetFlip.redo and the last step of
ResetTransforms.redo: `if item.flip() == -1: item.do_flip(anchor=item.center)`. -/
def resetFlipStep (T : TransformMap) (it : Item) : Item :=
  if it.flip = -1 then it.do_flip T false it.center else it

/-- The loop body of ResetTransforms.redo: reset scale, then rotation,
then (if mirrored) flip, each anchored at the item's center. -/
def resetTransformsStep (T : TransformMap) (it : Item) : Item :=
  resetFlipStep T
    ((it.setScaleAnchored T 1 it.center).setRotationAnchored T 0
      (it.setScaleAnchored T 1 it.center).center)

/-- The loop body of ResetTransforms.undo for one item and its captured
bundle: `setScale(old['scale'])`, `setRotation(old['rotation'])`, then
`do_flip` if the captured flip was -1 — the same scale → rotation → flip
order as redo, all anchored at the item's center. -/
def undoTransformsStep (T : TransformMap) (old : OldTransform) (it : Item) :
    Item :=
  if old.flip = -1 then
    ((it.setScaleAnchored T old.scale it.center).setRotationAnchored T
        old.rotation
        (it.setScaleAnchored T old.scale it.center).center).do_flip T false
      ((it.setScaleAnchored T old.scale it.center).setRotationAnchored T
          old.rotation
          (it.setScaleAnchored T old.scale it.center).center).center
  else
    (it.setScaleAnchored T old.scale it.center).setRotationAnchored T
      old.rotation (it.setScaleAnchored T old.scale it.center).center

/-- Translation of the `redo` methods of src/beeref/commands.py.  Returns
the updated command (cleared `ignore_first_redo` flag, freshly assigned
captured state) together with the updated world. -/
def Command.redo (T : TransformMap) (c : Command) (w : World) :
    Command × World :=
  match c with
  | .insertItems idxs fl =>
    if fl then (.insertItems idxs false, w)
    else
      (.insertItems idxs false,
        { w with
          items := applyAll (fun it => { it with inScene := true, selected := true })
            idxs (clearSel w.items) })
  | .deleteItems idxs =>
    (.deleteItems idxs,
      { w with items := applyAll (fun it => { it with inScene := false }) idxs w.items })
  | .moveItemsBy idxs d fl =>
    if fl then (.moveItemsBy idxs d false, w)
    else
      (.moveItemsBy idxs d false,
        { w with items := applyAll (fun it => it.moveBy d.1 d.2) idxs w.items })
  | .scaleItemsBy idxs k a fl =>
    if fl then (.scaleItemsBy idxs k a false, w)
    else
      (.scaleItemsBy idxs k a false,
        { w with
          items := applyAll
            (fun it => it.setScaleAnchored T (it.scale * k) (it.mapFromScene T a))
            idxs w.items })
  | .rotateItemsBy idxs d a fl =>
    if fl then (.rotateItemsBy idxs d a false, w)
    else
      (.rotateItemsBy idxs d a false,
        { w with
          items := applyAll
            (fun it =>
              it.setRotationAnchored T (it.rotation + d * (it.flip : ℚ))
                (it.mapFromScene T a))
            idxs w.items })
  | .normalizeItems idxs fs _ =>
    (fun r => (.normalizeItems idxs fs (some r.1), { w with items := r.2 }))
      (capFold (fun it => it.scale)
        (fun it k =>
          it.setScaleAnchored T (it.scale * k) (it.width / 2, it.height / 2))
        (idxs.zip fs) w.items)
  | .flipItems idxs a vert =>
    (.flipItems idxs a vert,
      { w with
        items := applyAll (fun it => it.do_flip T vert (it.mapFromScene T a))
          idxs w.items })
  | .resetScale idxs _ =>
    (fun r => (.resetScale idxs (some r.1), { w with items := r.2 }))
      (capFold (fun it => it.scale)
        (fun it _ => it.setScaleAnchored T 1 it.center)
        (idxs.map fun i => (i, ())) w.items)
  | .resetRotation idxs _ =>
    (fun r => (.resetRotation idxs (some r.1), { w with items := r.2 }))
      (capFold (fun it => it.rotation)
        (fun it _ => it.setRotationAnchored T 0 it.center)
        (idxs.map fun i => (i, ())) w.items)
  | .resetFlip idxs _ =>
    (fun r => (.resetFlip idxs (some r.1), { w with items := r.2 }))
      (capFold (fun it => it.flip) (fun it _ => resetFlipStep T it)
        (idxs.map fun i => (i, ())) w.items)
  | .resetTransforms idxs _ =>
    (fun r => (.resetTransforms idxs (some r.1), { w with items := r.2 }))
      (capFold (fun it => OldTransform.mk it.scale it.rotation it.flip)
        (fun it _ => resetTransformsStep T it)
        (idxs.map fun i => (i, ())) w.items)

/-- Translation of the `undo` methods of src/beeref/commands.py.  `none`
models the `AttributeError` a capture command raises when `undo` is called
before any `redo` assigned the captured-state attribute; the error is
raised when the `zip(...)` argument is evaluated, before any item is
touched, so no partially-mutated world exists in that case.  No `undo`
method writes a command attribute, so only the world is returned. -/
def Command.undo (T : TransformMap) (c : Command) (w : World) : Option World :=
  match c with
  | .insertItems idxs _ =>
    some
      { w with
        items := applyAll (fun it => { it with inScene := false }) idxs
          (clearSel w.items) }
  | .deleteItems idxs =>
    some
      { w with
        items := applyAll (fun it => { it with selected := true, inScene := true })
          idxs (clearSel w.items) }
  | .moveItemsBy idxs d _ =>
    some { w with items := applyAll (fun it => it.moveBy (-d.1) (-d.2)) idxs w.items }
  | .scaleItemsBy idxs k a _ =>
    some
      { w with
        items := applyAll
          (fun it => it.setScaleAnchored T (it.scale / k) (it.mapFromScene T a))
          idxs w.items }
  | .rotateItemsBy idxs d a _ =>
    some
      { w with
        items := applyAll
          (fun it =>
            it.setRotationAnchored T (it.rotation - d * (it.flip : ℚ))
              (it.mapFromScene T a))
          idxs w.items }
  | .normalizeItems idxs _ old =>
    old.map fun olds =>
      { w with
        items := undoFold
          (fun it c => it.setScaleAnchored T c (it.width / 2, it.height / 2))
          (idxs.zip olds) w.items }
  | .flipItems idxs a vert =>
    some (Command.redo T (.flipItems idxs a vert) w).2
  | .resetScale idxs old =>
    old.map fun olds =>
      { w with
        items := undoFold (fun it c => it.setScaleAnchored T c it.center)
          (idxs.zip olds) w.items }
  | .resetRotation idxs old =>
    old.map fun olds =>
      { w with
        items := undoFold (fun it c => it.setRotationAnchored T c it.center)
          (idxs.zip olds) w.items }
  | .resetFlip idxs old =>
    old.map fun olds =>
      { w with
        items := undoFold
          (fun it c => if c = -1 then it.do_flip T false it.center else it)
          (idxs.zip olds) w.items }
  | .resetTransforms idxs old =>
    old.map fun olds =>
      { w with
        items := undoFold (fun it o => undoTransformsStep T o it)
          (idxs.zip olds) w.items }

/-! Basic facts about `updateAt`, `applyAll`, `capFold`, `undoFold`. -/

theorem updateAt_length (l : List Item) (i : Nat) (f : Item → Item) :
    (updateAt l i f).length = l.length := by
  induction l generalizing i with
  | nil => rfl
  | cons a t ih =>
    cases i with
    | zero => rfl
    | succ n => simpa [updateAt] using ih n

theorem getD_updateAt_ne (l : List Item) (i j : Nat) (f : Item → Item)
    (d : Item) (h : j ≠ i) : (updateAt l i f).getD j d = l.getD j d := by
  induction l generalizing i j with
  | nil => rfl
  | cons a t ih =>
    cases i with
    | zero =>
      cases j with
      | zero => exact absurd rfl h
      | succ m => simp [updateAt]
    | succ n =>
      cases j with
      | zero => simp [updateAt]
      | succ m => simpa [updateAt] using ih n m (fun hc => h (by simp [hc]))

theorem getD_updateAt_self (l : List Item) (i : Nat) (f : Item → Item)
    (d : Item) (h : i < l.length) :
    (updateAt l i f).getD i d = f (l.getD i d) := by
  induction l generalizing i with
  | nil => simp at h
  | cons a t ih =>
    cases i with
    | zero => simp [updateAt]
    | succ n => simpa [updateAt] using ih n (by simpa using h)

theorem updateAt_comm (l : List Item) (i j : Nat) (f g : Item → Item)
    (h : i ≠ j) :
    updateAt (updateAt l i f) j g = updateAt (updateAt l j g) i f := by
  induction l generalizing i j with
  | nil => rfl
  | cons a t ih =>
    cases i with
    | zero =>
      cases j with
      | zero => exact absurd rfl h
      | succ m => simp [updateAt]
    | succ n =>
      cases j with
      | zero => simp [updateAt]
      | succ m => simpa [updateAt] using ih n m (fun hc => h (by simp [hc]))

theorem updateAt_updateAt (l : List Item) (i : Nat) (f g : Item → Item) :
    updateAt (updateAt l i f) i g = updateAt l i fun x => g (f x) := by
  induction l generalizing i with
  | nil => rfl
  | cons a t ih =>
    cases i with
    | zero => simp [updateAt]
    | succ n => simpa [updateAt] using ih n

theorem updateAt_self (l : List Item) (i : Nat) (f : Item → Item) (d : Item)
    (h : i < l.length → f (l.getD i d) = l.getD i d) :
    updateAt l i f = l := by
  induction l generalizing i with
  | nil => rfl
  | cons a t ih =>
    cases i with
    | zero =>
      have := h (by simp)
      simpa [updateAt] using this
    | succ n =>
      simp only [updateAt, List.cons.injEq, true_and]
      exact ih n (fun hn => h (by simpa using Nat.succ_lt_succ hn))

theorem updateAt_forall (l : List Item) (i : Nat) (f : Item → Item)
    (P : Item → Prop) (hl : ∀ x ∈ l, P x) (hf : ∀ x, P x → P (f x)) :
    ∀ x ∈ updateAt l i f, P x := by
  induction l generalizing i with
  | nil => simp [updateAt]
  | cons a t ih =>
    cases i with
    | zero =>
      intro x hx
      rcases List.mem_cons.mp hx with h | h
      · exact h ▸ hf a (hl a (by simp))
      · exact hl x (List.mem_cons_of_mem _ h)
    | succ n =>
      intro x hx
      rcases List.mem_cons.mp hx with h | h
      · exact h ▸ hl a (by simp)
      · exact ih n (fun y hy => hl y (List.mem_cons_of_mem _ hy)) x h

theorem applyAll_length (f : Item → Item) (idxs : List Nat) (l : List Item) :
    (applyAll f idxs l).length = l.length := by
  induction idxs generalizing l with
  | nil => rfl
  | cons i rest ih => simpa [applyAll, updateAt_length] using ih (updateAt l i f)

theorem applyAll_getD_notin (f : Item → Item) (idxs : List Nat)
    (l : List Item) (j : Nat) (d : Item) (h : j ∉ idxs) :
    (applyAll f idxs l).getD j d = l.getD j d := by
  induction idxs generalizing l with
  | nil => rfl
  | cons i rest ih =>
    have hji : j ≠ i := fun hc => h (hc ▸ List.mem_cons_self i rest)
    have hjr : j ∉ rest := fun hc => h (List.mem_cons_of_mem _ hc)
    simp only [applyAll]
    rw [ih (updateAt l i f) hjr, getD_updateAt_ne _ _ _ _ _ hji]

theorem applyAll_getD_mem (f : Item → Item) (idxs : List Nat) (l : List Item)
    (j : Nat) (d : Item) (hnd : idxs.Nodup) (hj : j ∈ idxs)
    (hlen : j < l.length) :
    (applyAll f idxs l).getD j d = f (l.getD j d) := by
  induction idxs generalizing l with
  | nil => simp at hj
  | cons i rest ih =>
    rcases List.mem_cons.mp hj with h | h
    · subst h
      have hni : j ∉ rest := (List.nodup_cons.mp hnd).1
      simp only [applyAll]
      rw [applyAll_getD_notin _ _ _ _ _ hni, getD_updateAt_self _ _ _ _ hlen]
    · have hji : j ≠ i := fun hc => (List.nodup_cons.mp hnd).1 (hc ▸ h)
      simp only [applyAll]
      rw [ih (updateAt l i f) (List.nodup_cons.mp hnd).2 h
        (by simpa [updateAt_length] using hlen),
        getD_updateAt_ne _ _ _ _ _ hji]

theorem applyAll_updateAt_comm (f g : Item → Item) (idxs : List Nat)
    (l : List Item) (i : Nat) (h : i ∉ idxs) :
    applyAll f idxs (updateAt l i g) = updateAt (applyAll f idxs l) i g := by
  induction idxs generalizing l with
  | nil => rfl
  | cons j rest ih =>
    have hij : j ≠ i := fun hc => h (hc ▸ List.mem_cons_self j rest)
    simp only [applyAll]
    rw [updateAt_comm _ _ _ _ _ (fun hc => hij hc.symm),
      ih (updateAt l j f) (fun hc => h (List.mem_cons_of_mem _ hc))]

theorem applyAll_forall (f : Item → Item) (idxs : List Nat) (l : List Item)
    (P : Item → Prop) (hl : ∀ x ∈ l, P x) (hf : ∀ x, P x → P (f x)) :
    ∀ x ∈ applyAll f idxs l, P x := by
  induction idxs generalizing l with
  | nil => exact hl
  | cons i rest ih =>
    exact fun x hx => ih (updateAt l i f) (updateAt_forall _ _ _ _ hl hf) x hx

/-- Round trip of a capture-free command loop: running the inverse step
over the same (pairwise distinct, in-range) item references restores every
item, provided the forward step preserves the invariant `P` under which
the inverse law holds. -/
theorem applyAll_roundtrip (f g : Item → Item) (idxs : List Nat)
    (l : List Item) (P : Item → Prop) (hnd : idxs.Nodup)
    (hrange : ∀ i ∈ idxs, i < l.length) (hl : ∀ x ∈ l, P x)
    (hinv : ∀ x, P x → g (f x) = x) :
    applyAll g idxs (applyAll f idxs l) = l := by
  induction idxs generalizing l with
  | nil => rfl
  | cons i rest ih =>
    have hni : i ∉ rest := (List.nodup_cons.mp hnd).1
    simp only [applyAll]
    rw [← applyAll_updateAt_comm f g rest (updateAt l i f) i hni,
      updateAt_updateAt]
    have hfix : updateAt l i (fun x => g (f x)) = l := by
      apply updateAt_self l i _ default
      intro hi
      refine hinv _ (hl _ ?_)
      rw [List.getD_eq_getElem l default hi]
      exact List.getElem_mem hi
    rw [hfix]
    exact ih l (List.nodup_cons.mp hnd).2
      (fun j hj => hrange j (List.mem_cons_of_mem _ hj)) hl
theorem applyAll_cons (f : Item → Item) (i : Nat) (rest : List Nat)
    (w : List Item) :
    applyAll f (i :: rest) w = applyAll f rest (updateAt w i f) := rfl

theorem capFold_cons (cap : Item → κ) (act : Item → π → Item) (i : Nat)
    (p : π) (rest : List (Nat × π)) (w : List Item) :
    capFold cap act ((i, p) :: rest) w =
      (cap (w.getD i default) ::
          (capFold cap act rest (updateAt w i fun it => act it p)).1,
        (capFold cap act rest (updateAt w i fun it => act it p)).2) := rfl

theorem undoFold_cons (ua : Item → κ → Item) (i : Nat) (c : κ)
    (rest : List (Nat × κ)) (w : List Item) :
    undoFold ua ((i, c) :: rest) w =
      undoFold ua rest (updateAt w i fun it => ua it c) := rfl

theorem capFold_fst_cons (cap : Item → κ) (act : Item → π → Item) (i : Nat)
    (p : π) (rest : List (Nat × π)) (w : List Item) :
    (capFold cap act ((i, p) :: rest) w).1 =
      cap (w.getD i default) ::
        (capFold cap act rest (updateAt w i fun it => act it p)).1 := rfl

theorem capFold_snd_cons (cap : Item → κ) (act : Item → π → Item) (i : Nat)
    (p : π) (rest : List (Nat × π)) (w : List Item) :
    (capFold cap act ((i, p) :: rest) w).2 =
      (capFold cap act rest (updateAt w i fun it => act it p)).2 := rfl

theorem capFold_fst_length (cap : Item → κ) (act : Item → π → Item)
    (pairs : List (Nat × π)) (w : List Item) :
    (capFold cap act pairs w).1.length = pairs.length := by
  induction pairs generalizing w with
  | nil => rfl
  | cons pr rest ih =>
    obtain ⟨i, p⟩ := pr
    simpa [capFold_cons] using ih (updateAt w i fun it => act it p)

theorem capFold_snd_length (cap : Item → κ) (act : Item → π → Item)
    (pairs : List (Nat × π)) (w : List Item) :
    (capFold cap act pairs w).2.length = w.length := by
  induction pairs generalizing w with
  | nil => rfl
  | cons pr rest ih =>
    obtain ⟨i, p⟩ := pr
    simpa [capFold_cons, updateAt_length] using
      ih (updateAt w i fun it => act it p)

theorem capFold_snd_getD_notin (cap : Item → κ) (act : Item → π → Item)
    (pairs : List (Nat × π)) (w : List Item) (j : Nat) (d : Item)
    (h : j ∉ pairs.map Prod.fst) :
    (capFold cap act pairs w).2.getD j d = w.getD j d := by
  induction pairs generalizing w with
  | nil => rfl
  | cons pr rest ih =>
    obtain ⟨i, p⟩ := pr
    have hji : j ≠ i := fun hc => h (by simp [hc])
    have hjr : j ∉ rest.map Prod.fst := fun hc => h (by simp [hc])
    rw [capFold_snd_cons]
    exact (ih (updateAt w i fun it => act it p) hjr).trans
      (getD_updateAt_ne _ _ _ _ _ hji)

theorem undoFold_updateAt_comm (ua : Item → κ → Item)
    (pairs : List (Nat × κ)) (w : List Item) (i : Nat) (g : Item → Item)
    (h : i ∉ pairs.map Prod.fst) :
    undoFold ua pairs (updateAt w i g) = updateAt (undoFold ua pairs w) i g := by
  induction pairs generalizing w with
  | nil => rfl
  | cons pr rest ih =>
    obtain ⟨j, c⟩ := pr
    have hij : j ≠ i := fun hc => h (by simp [hc])
    rw [undoFold_cons, undoFold_cons,
      updateAt_comm _ _ _ _ _ (fun hc => hij hc.symm),
      ih (updateAt w j fun it => ua it c) (fun hc => h (by simp [hc]))]

theorem capFold_forall (cap : Item → κ) (act : Item → π → Item)
    (pairs : List (Nat × π)) (w : List Item) (P : Item → Prop)
    (hw : ∀ x ∈ w, P x)
    (hact : ∀ x p, p ∈ pairs.map Prod.snd → P x → P (act x p)) :
    ∀ x ∈ (capFold cap act pairs w).2, P x := by
  induction pairs generalizing w with
  | nil => exact hw
  | cons pr rest ih =>
    obtain ⟨i, p⟩ := pr
    intro x hx
    rw [capFold_cons] at hx
    exact ih (updateAt w i fun it => act it p)
      (updateAt_forall _ _ _ _ hw fun y hy => hact y p (by simp) hy)
      (fun y q hq hy => hact y q (by simp [hq]) hy) x hx

/-- With pairwise distinct references, the captured list produced by a
capture-and-mutate loop reads each referenced item from the world as it
was when the loop started. -/
theorem capFold_fst_eq (cap : Item → κ) (act : Item → π → Item)
    (pairs : List (Nat × π)) (w : List Item)
    (hnd : (pairs.map Prod.fst).Nodup) :
    (capFold cap act pairs w).1 =
      pairs.map fun pr => cap (w.getD pr.1 default) := by
  induction pairs generalizing w with
  | nil => rfl
  | cons pr rest ih =>
    obtain ⟨i, p⟩ := pr
    rw [List.map_cons] at hnd
    have hni : i ∉ rest.map Prod.fst := (List.nodup_cons.mp hnd).1
    have hnd' : (rest.map Prod.fst).Nodup := (List.nodup_cons.mp hnd).2
    rw [capFold_fst_cons, List.map_cons]
    congr 1
    rw [ih (updateAt w i fun it => act it p) hnd']
    refine List.map_congr_left fun q hq => ?_
    have hfm : q.1 ∈ rest.map Prod.fst := List.mem_map_of_mem Prod.fst hq
    have hqi : q.1 ≠ i := fun hc => hni (hc ▸ hfm)
    rw [getD_updateAt_ne _ _ _ _ _ hqi]

/-- With pairwise distinct references, the item referenced by the k-th
pair ends the capture-and-mutate loop as `act` of its initial state. -/
theorem capFold_snd_getD_at (cap : Item → κ) (act : Item → π → Item)
    (pairs : List (Nat × π)) (w : List Item) (k : Nat) (dp : Nat × π)
    (d : Item) (hnd : (pairs.map Prod.fst).Nodup) (hk : k < pairs.length)
    (hrange : (pairs.getD k dp).1 < w.length) :
    (capFold cap act pairs w).2.getD (pairs.getD k dp).1 d =
      act (w.getD (pairs.getD k dp).1 d) (pairs.getD k dp).2 := by
  induction pairs generalizing w k with
  | nil => simp at hk
  | cons pr rest ih =>
    obtain ⟨i, p⟩ := pr
    rw [List.map_cons] at hnd
    have hni : i ∉ rest.map Prod.fst := (List.nodup_cons.mp hnd).1
    have hnd' : (rest.map Prod.fst).Nodup := (List.nodup_cons.mp hnd).2
    cases k with
    | zero =>
      simp only [List.getD_cons_zero] at hrange ⊢
      rw [capFold_snd_cons]
      exact (capFold_snd_getD_notin _ _ _ _ _ _ hni).trans
        (getD_updateAt_self _ _ _ _ hrange)
    | succ m =>
      simp only [List.getD_cons_succ] at hrange ⊢
      have hm : m < rest.length := by simpa using hk
      have hmem : rest.getD m dp ∈ rest := by
        rw [List.getD_eq_getElem rest dp hm]
        exact List.getElem_mem hm
      have hfm : (rest.getD m dp).1 ∈ rest.map Prod.fst :=
        List.mem_map_of_mem Prod.fst hmem
      have hne : (rest.getD m dp).1 ≠ i := fun hc => hni (hc ▸ hfm)
      rw [capFold_snd_cons]
      rw [ih (updateAt w i fun it => act it p) m hnd'
        (by simpa using hk) (by simpa [updateAt_length] using hrange),
        getD_updateAt_ne _ _ _ _ _ hne]

/-- Round trip of a capture-and-mutate command: running the undo loop over
the captured values restores every item, provided undoing with the
captured value inverts the action under the invariant `P`, the action
preserves `P`, and the item references are pairwise distinct and in
range. -/
theorem capFold_roundtrip (cap : Item → κ) (act : Item → π → Item)
    (ua : Item → κ → Item) (pairs : List (Nat × π)) (w : List Item)
    (P : Item → Prop) (hnd : (pairs.map Prod.fst).Nodup)
    (hrange : ∀ pr ∈ pairs, pr.1 < w.length) (hw : ∀ x ∈ w, P x)
    (hact : ∀ x p, p ∈ pairs.map Prod.snd → P x → P (act x p))
    (hinv : ∀ x p, p ∈ pairs.map Prod.snd → P x →
      ua (act x p) (cap x) = x) :
    undoFold ua ((pairs.map Prod.fst).zip (capFold cap act pairs w).1)
      (capFold cap act pairs w).2 = w := by
  induction pairs generalizing w with
  | nil => rfl
  | cons pr rest ih =>
    obtain ⟨i, p⟩ := pr
    rw [List.map_cons] at hnd
    have hni : i ∉ rest.map Prod.fst := (List.nodup_cons.mp hnd).1
    have hnd' : (rest.map Prod.fst).Nodup := (List.nodup_cons.mp hnd).2
    have hilen : i < w.length := hrange (i, p) (by simp)
    rw [capFold_fst_cons, capFold_snd_cons, List.map_cons,
      List.zip_cons_cons, undoFold_cons]
    have hsub : i ∉ ((rest.map Prod.fst).zip
        (capFold cap act rest (updateAt w i fun it => act it p)).1).map
          Prod.fst := by
      intro hc
      rcases List.mem_map.mp hc with ⟨⟨q1, q2⟩, hq, hq1⟩
      have hfm : q1 ∈ rest.map Prod.fst := (List.of_mem_zip hq).1
      exact hni (hq1 ▸ hfm)
    rw [undoFold_updateAt_comm _ _ _ _ _ hsub,
      ih (updateAt w i fun it => act it p) hnd'
        (fun q hq => by
          simpa [updateAt_length] using hrange q (List.mem_cons_of_mem _ hq))
        (updateAt_forall _ _ _ _ hw fun y hy => hact y p (by simp) hy)
        (fun y q hq hy => hact y q (by simp [hq]) hy)
        (fun y q hq hy => hinv y q (by simp [hq]) hy),
      updateAt_updateAt]
    apply updateAt_self w i _ default
    intro _
    refine hinv _ p (by simp) (hw _ ?_)
    rw [List.getD_eq_getElem w default hilen]
    exact List.getElem_mem hilen

/-! Per-item inverse laws of the anchored setters. -/

attribute [ext] Item World

/-- The spec's item-state invariant (section 3): positive scale factor and
flip sign ±1. -/
def ItemOK (it : Item) : Prop :=
  0 < it.scale ∧ (it.flip = 1 ∨ it.flip = -1)

/-- An item whose every member satisfies the spec's item invariant. -/
def WorldOK (w : World) : Prop :=
  ∀ it ∈ w.items, ItemOK it

/-- After an anchored update that kept the scene image of the anchor
fixed, mapping the original scene anchor back to local coordinates yields
the original local anchor again. -/
theorem inv_shift (T : TransformMap) (s r : ℚ) (f : ℤ) (s2 r2 : ℚ) (f2 : ℤ)
    (p A : ℚ × ℚ) (hs : 0 < s) (hf : f = 1 ∨ f = -1) (hs2 : 0 < s2)
    (hf2 : f2 = 1 ∨ f2 = -1) :
    T.inv s2 r2 f2
      (A - (p - (T.fwd s2 r2 f2 (T.inv s r f (A - p)) -
        T.fwd s r f (T.inv s r f (A - p))))) = T.inv s r f (A - p) := by
  rw [T.fwd_inv _ _ _ _ hs hf]
  have h2 : A - (p - (T.fwd s2 r2 f2 (T.inv s r f (A - p)) - (A - p))) =
      T.fwd s2 r2 f2 (T.inv s r f (A - p)) := by abel
  rw [h2, T.inv_fwd _ _ _ _ hs2 hf2]

/-- Setting the scale to `v` and then back to the original value with the
same local anchor restores the item exactly. -/
theorem setScale_setScale (T : TransformMap) (it : Item) (v : ℚ)
    (a : ℚ × ℚ) (hv : 0 < v) (hs : 0 < it.scale) :
    (it.setScaleAnchored T v a).setScaleAnchored T it.scale a = it := by
  obtain ⟨p, s, r, f, wd, ht, sc, sel⟩ := it
  simp only [Item.setScaleAnchored] at *
  rw [if_neg (not_le.mpr hv), if_neg (not_le.mpr hs)]
  ext <;> simp <;> abel

/-- Setting the rotation to `v` and then back to the original value with
the same local anchor restores the item exactly. -/
theorem setRotation_setRotation (T : TransformMap) (it : Item) (v : ℚ)
    (a : ℚ × ℚ) :
    (it.setRotationAnchored T v a).setRotationAnchored T it.rotation a = it := by
  obtain ⟨p, s, r, f, wd, ht, sc, sel⟩ := it
  simp only [Item.setRotationAnchored] at *
  ext <;> simp <;> abel

/-- Flipping twice with the same local anchor restores the item exactly. -/
theorem do_flip_do_flip (T : TransformMap) (it : Item) (b b2 : Bool)
    (a : ℚ × ℚ) : (it.do_flip T b a).do_flip T b2 a = it := by
  obtain ⟨p, s, r, f, wd, ht, sc, sel⟩ := it
  simp only [Item.do_flip] at *
  ext <;> simp <;> abel

/-- The per-item loop step of ScaleItemsBy.undo inverts the step of
ScaleItemsBy.redo: scaling by `1/k` around the re-mapped scene anchor
restores scale and position exactly. -/
theorem scaleStep_inv (T : TransformMap) (k : ℚ) (A : ℚ × ℚ) (hk : 0 < k)
    (it : Item) (h : ItemOK it) :
    (it.setScaleAnchored T (it.scale * k) (it.mapFromScene T A)).setScaleAnchored
      T ((it.setScaleAnchored T (it.scale * k) (it.mapFromScene T A)).scale / k)
      ((it.setScaleAnchored T (it.scale * k) (it.mapFromScene T A)).mapFromScene
        T A) = it := by
  obtain ⟨hs, hf⟩ := h
  obtain ⟨p, s, r, f, wd, ht, sc, sel⟩ := it
  simp only [ItemOK] at hs hf
  have hsk : 0 < s * k := mul_pos hs hk
  simp only [Item.setScaleAnchored, Item.mapFromScene]
  rw [if_neg (not_le.mpr hsk)]
  simp only []
  rw [mul_div_cancel_right₀ s (ne_of_gt hk), if_neg (not_le.mpr hs),
    inv_shift T s r f (s * k) r f p A hs hf hsk hf]
  ext <;> simp <;> abel

/-- The per-item loop step of RotateItemsBy.undo inverts the step of
RotateItemsBy.redo: subtracting the flip-compensated delta around the
re-mapped scene anchor restores rotation and position exactly. -/
theorem rotateStep_inv (T : TransformMap) (d : ℚ) (A : ℚ × ℚ) (it : Item)
    (h : ItemOK it) :
    (it.setRotationAnchored T (it.rotation + d * (it.flip : ℚ))
        (it.mapFromScene T A)).setRotationAnchored T
      ((it.setRotationAnchored T (it.rotation + d * (it.flip : ℚ))
          (it.mapFromScene T A)).rotation -
        d * (((it.setRotationAnchored T (it.rotation + d * (it.flip : ℚ))
          (it.mapFromScene T A)).flip : ℚ)))
      ((it.setRotationAnchored T (it.rotation + d * (it.flip : ℚ))
          (it.mapFromScene T A)).mapFromScene T A) = it := by
  obtain ⟨hs, hf⟩ := h
  obtain ⟨p, s, r, f, wd, ht, sc, sel⟩ := it
  simp only [ItemOK] at hs hf
  simp only [Item.setRotationAnchored, Item.mapFromScene]
  simp only [add_sub_cancel_right]
  rw [inv_shift T s r f s (r + d * (f : ℚ)) f p A hs hf hs hf]
  ext <;> simp <;> abel

/-- The per-item loop step of FlipItems.undo (which simply runs redo
again) inverts the step of FlipItems.redo. -/
theorem flipStep_inv (T : TransformMap) (b : Bool) (A : ℚ × ℚ) (it : Item)
    (h : ItemOK it) :
    (it.do_flip T b (it.mapFromScene T A)).do_flip T b
      ((it.do_flip T b (it.mapFromScene T A)).mapFromScene T A) = it := by
  obtain ⟨hs, hf⟩ := h
  obtain ⟨p, s, r, f, wd, ht, sc, sel⟩ := it
  simp only [ItemOK] at hs hf
  have hnf : (-f = 1 ∨ -f = -1) := by
    rcases hf with h1 | h1 <;> simp [h1]
  simp only [Item.do_flip, Item.mapFromScene]
  rw [inv_shift T s r f s r (-f) p A hs hf hs hnf]
  ext <;> simp <;> abel

theorem center_setScaleAnchored (T : TransformMap) (it : Item) (v : ℚ)
    (a : ℚ × ℚ) : (it.setScaleAnchored T v a).center = it.center := by
  simp only [Item.setScaleAnchored]
  split <;> rfl

theorem center_setRotationAnchored (T : TransformMap) (it : Item) (v : ℚ)
    (a : ℚ × ℚ) : (it.setRotationAnchored T v a).center = it.center := rfl

theorem center_do_flip (T : TransformMap) (it : Item) (b : Bool)
    (a : ℚ × ℚ) : (it.do_flip T b a).center = it.center := rfl

theorem scale_setScaleAnchored (T : TransformMap) (it : Item) (v : ℚ)
    (a : ℚ × ℚ) (h : 0 < v) : (it.setScaleAnchored T v a).scale = v := by
  rw [Item.setScaleAnchored, if_neg (not_le.mpr h)]

theorem flip_setScaleAnchored (T : TransformMap) (it : Item) (v : ℚ)
    (a : ℚ × ℚ) : (it.setScaleAnchored T v a).flip = it.flip := by
  simp only [Item.setScaleAnchored]
  split <;> rfl

theorem rotation_setRotationAnchored (T : TransformMap) (it : Item) (v : ℚ)
    (a : ℚ × ℚ) : (it.setRotationAnchored T v a).rotation = v := rfl

theorem flip_setRotationAnchored (T : TransformMap) (it : Item) (v : ℚ)
    (a : ℚ × ℚ) : (it.setRotationAnchored T v a).flip = it.flip := rfl

theorem scale_setRotationAnchored (T : TransformMap) (it : Item) (v : ℚ)
    (a : ℚ × ℚ) : (it.setRotationAnchored T v a).scale = it.scale := rfl

/-- The per-item undo step of ResetFlip (`do_flip` again exactly when the
captured flip was -1) inverts the per-item redo step. -/
theorem resetFlipStep_inv (T : TransformMap) (x : Item) :
    (if x.flip = -1 then
        (resetFlipStep T x).do_flip T false (resetFlipStep T x).center
      else resetFlipStep T x) = x := by
  by_cases hf : x.flip = -1
  · rw [if_pos hf]
    simp only [resetFlipStep, if_pos hf, center_do_flip]
    exact do_flip_do_flip T x false false x.center
  · rw [if_neg hf]
    simp [resetFlipStep, hf]

/-- The per-item undo step of ResetTransforms (restore scale, then
rotation, then conditionally flip, all anchored at the center) inverts
the per-item redo step. -/
theorem resetTransformsStep_inv (T : TransformMap) (x : Item)
    (h : ItemOK x) :
    undoTransformsStep T (OldTransform.mk x.scale x.rotation x.flip)
      (resetTransformsStep T x) = x := by
  obtain ⟨hs, hf⟩ := h
  obtain ⟨p, s, r, f, wd, ht, sc, sel⟩ := x
  simp only [ItemOK] at hs hf
  have h10 : ¬((1 : ℚ) ≤ 0) := by norm_num
  rcases hf with hf | hf <;> subst hf
  · simp only [undoTransformsStep, resetTransformsStep, resetFlipStep,
      Item.setScaleAnchored, Item.setRotationAnchored, Item.do_flip,
      Item.center, if_neg h10, if_neg (not_le.mpr hs)]
    norm_num
    ext <;> simp <;> abel
  · simp only [undoTransformsStep, resetTransformsStep, resetFlipStep,
      Item.setScaleAnchored, Item.setRotationAnchored, Item.do_flip,
      Item.center, if_neg h10, if_neg (not_le.mpr hs)]
    norm_num
    ext <;> simp <;> abel

theorem width_setScaleAnchored (T : TransformMap) (it : Item) (v : ℚ)
    (a : ℚ × ℚ) : (it.setScaleAnchored T v a).width = it.width := by
  simp only [Item.setScaleAnchored]
  split <;> rfl

theorem height_setScaleAnchored (T : TransformMap) (it : Item) (v : ℚ)
    (a : ℚ × ℚ) : (it.setScaleAnchored T v a).height = it.height := by
  simp only [Item.setScaleAnchored]
  split <;> rfl

theorem scale_do_flip (T : TransformMap) (it : Item) (b : Bool)
    (a : ℚ × ℚ) : (it.do_flip T b a).scale = it.scale := rfl

theorem flip_do_flip (T : TransformMap) (it : Item) (b : Bool)
    (a : ℚ × ℚ) : (it.do_flip T b a).flip = -it.flip := rfl

theorem resetFlipStep_ok (T : TransformMap) (x : Item) (h : ItemOK x) :
    ItemOK (resetFlipStep T x) := by
  obtain ⟨hs, hf⟩ := h
  by_cases hneg : x.flip = -1
  · refine ⟨by simpa [resetFlipStep, hneg, scale_do_flip] using hs, ?_⟩
    simp [resetFlipStep, hneg, flip_do_flip]
  · simpa [resetFlipStep, hneg] using ⟨hs, hf⟩

theorem resetTransformsStep_ok (T : TransformMap) (x : Item) (h : ItemOK x) :
    ItemOK (resetTransformsStep T x) := by
  obtain ⟨hs, hf⟩ := h
  refine resetFlipStep_ok T _ ⟨?_, ?_⟩
  · rw [scale_setRotationAnchored, scale_setScaleAnchored T x 1 _ one_pos]
    exact one_pos
  · rw [flip_setRotationAnchored, flip_setScaleAnchored]
    exact hf

/-- Agreement of two item states on everything except the selection flag:
position, scale, rotation, flip and scene membership. -/
def ItemAgrees (a b : Item) : Prop :=
  a.pos = b.pos ∧ a.scale = b.scale ∧ a.rotation = b.rotation ∧
    a.flip = b.flip ∧ a.inScene = b.inScene

theorem ItemAgrees.refl (a : Item) : ItemAgrees a a :=
  ⟨rfl, rfl, rfl, rfl, rfl⟩

/-- InsertItems and DeleteItems rebuild the selection from scratch; all
other commands leave selection and membership untouched. -/
def Command.isGeometry : Command → Bool
  | .insertItems _ _ => false
  | .deleteItems _ => false
  | _ => true

/-- The preconditions under which a single redo-then-undo round trip is
exact: the command is set up for replay (`ignore_first_redo` clear), its
item references are pairwise distinct and in range, scale factors are
positive (the spec's own invariant), NormalizeItems has one factor per
item, and InsertItems (resp. DeleteItems) targets items currently outside
(resp. inside) the scene. -/
def RoundtripPre (c : Command) (w : World) : Prop :=
  match c with
  | .insertItems idxs fl =>
    fl = false ∧ idxs.Nodup ∧
      ∀ i ∈ idxs, i < w.items.length ∧ (w.getItem i).inScene = false
  | .deleteItems idxs =>
    idxs.Nodup ∧ ∀ i ∈ idxs, i < w.items.length ∧ (w.getItem i).inScene = true
  | .moveItemsBy idxs _ fl =>
    fl = false ∧ idxs.Nodup ∧ ∀ i ∈ idxs, i < w.items.length
  | .scaleItemsBy idxs k _ fl =>
    fl = false ∧ 0 < k ∧ idxs.Nodup ∧ ∀ i ∈ idxs, i < w.items.length
  | .rotateItemsBy idxs _ _ fl =>
    fl = false ∧ idxs.Nodup ∧ ∀ i ∈ idxs, i < w.items.length
  | .normalizeItems idxs fs _ =>
    fs.length = idxs.length ∧ (∀ x ∈ fs, 0 < x) ∧ idxs.Nodup ∧
      ∀ i ∈ idxs, i < w.items.length
  | .flipItems idxs _ _ =>
    idxs.Nodup ∧ ∀ i ∈ idxs, i < w.items.length
  | .resetScale idxs _ =>
    idxs.Nodup ∧ ∀ i ∈ idxs, i < w.items.length
  | .resetRotation idxs _ =>
    idxs.Nodup ∧ ∀ i ∈ idxs, i < w.items.length
  | .resetFlip idxs _ =>
    idxs.Nodup ∧ ∀ i ∈ idxs, i < w.items.length
  | .resetTransforms idxs _ =>
    idxs.Nodup ∧ ∀ i ∈ idxs, i < w.items.length

theorem clearSel_length (l : List Item) : (clearSel l).length = l.length := by
  simp [clearSel]

theorem getD_clearSel (l : List Item) (j : Nat) (d : Item)
    (h : j < l.length) :
    (clearSel l).getD j d = { l.getD j d with selected := false } := by
  induction l generalizing j with
  | nil => simp at h
  | cons a t ih =>
    cases j with
    | zero => simp [clearSel]
    | succ n => simpa [clearSel] using ih n (by simpa using h)

/-! Round-trip helper theorems, one per command kind. -/

theorem moveBy_moveBy (d : ℚ × ℚ) (x : Item) :
    (x.moveBy d.1 d.2).moveBy (-d.1) (-d.2) = x := by
  ext <;> simp [Item.moveBy]

theorem roundtrip_moveItemsBy (T : TransformMap) (idxs : List Nat)
    (d : ℚ × ℚ) (w : World) (hnd : idxs.Nodup)
    (hrange : ∀ i ∈ idxs, i < w.items.length) :
    Command.undo T (Command.redo T (.moveItemsBy idxs d false) w).1
      (Command.redo T (.moveItemsBy idxs d false) w).2 = some w := by
  have hrt : applyAll (fun it => it.moveBy (-d.1) (-d.2)) idxs
      (applyAll (fun it => it.moveBy d.1 d.2) idxs w.items) = w.items :=
    applyAll_roundtrip _ _ idxs w.items (fun _ => True) hnd hrange
      (fun _ _ => trivial) (fun x _ => moveBy_moveBy d x)
  show some { w with
      items := applyAll (fun it => it.moveBy (-d.1) (-d.2)) idxs
        (applyAll (fun it => it.moveBy d.1 d.2) idxs w.items) } = some w
  rw [hrt]

theorem roundtrip_scaleItemsBy (T : TransformMap) (idxs : List Nat)
    (k : ℚ) (a : ℚ × ℚ) (w : World) (hk : 0 < k) (hnd : idxs.Nodup)
    (hrange : ∀ i ∈ idxs, i < w.items.length) (hok : WorldOK w) :
    Command.undo T (Command.redo T (.scaleItemsBy idxs k a false) w).1
      (Command.redo T (.scaleItemsBy idxs k a false) w).2 = some w := by
  have hrt : applyAll
      (fun it => it.setScaleAnchored T (it.scale / k) (it.mapFromScene T a))
      idxs (applyAll
        (fun it => it.setScaleAnchored T (it.scale * k) (it.mapFromScene T a))
        idxs w.items) = w.items :=
    applyAll_roundtrip _ _ idxs w.items ItemOK hnd hrange hok
      (fun x hx => scaleStep_inv T k a hk x hx)
  show some { w with
      items := applyAll
        (fun it => it.setScaleAnchored T (it.scale / k) (it.mapFromScene T a))
        idxs (applyAll
          (fun it => it.setScaleAnchored T (it.scale * k) (it.mapFromScene T a))
          idxs w.items) } = some w
  rw [hrt]

theorem roundtrip_rotateItemsBy (T : TransformMap) (idxs : List Nat)
    (d : ℚ) (a : ℚ × ℚ) (w : World) (hnd : idxs.Nodup)
    (hrange : ∀ i ∈ idxs, i < w.items.length) (hok : WorldOK w) :
    Command.undo T (Command.redo T (.rotateItemsBy idxs d a false) w).1
      (Command.redo T (.rotateItemsBy idxs d a false) w).2 = some w := by
  have hrt : applyAll
      (fun it => it.setRotationAnchored T (it.rotation - d * (it.flip : ℚ))
        (it.mapFromScene T a)) idxs
      (applyAll
        (fun it => it.setRotationAnchored T (it.rotation + d * (it.flip : ℚ))
          (it.mapFromScene T a)) idxs w.items) = w.items :=
    applyAll_roundtrip _ _ idxs w.items ItemOK hnd hrange hok
      (fun x hx => rotateStep_inv T d a x hx)
  show some { w with
      items := applyAll
        (fun it => it.setRotationAnchored T (it.rotation - d * (it.flip : ℚ))
          (it.mapFromScene T a)) idxs
        (applyAll
          (fun it => it.setRotationAnchored T (it.rotation + d * (it.flip : ℚ))
            (it.mapFromScene T a)) idxs w.items) } = some w
  rw [hrt]

theorem roundtrip_flipItems (T : TransformMap) (idxs : List Nat)
    (a : ℚ × ℚ) (vert : Bool) (w : World) (hnd : idxs.Nodup)
    (hrange : ∀ i ∈ idxs, i < w.items.length) (hok : WorldOK w) :
    Command.undo T (Command.redo T (.flipItems idxs a vert) w).1
      (Command.redo T (.flipItems idxs a vert) w).2 = some w := by
  have hrt : applyAll
      (fun it => it.do_flip T vert (it.mapFromScene T a)) idxs
      (applyAll (fun it => it.do_flip T vert (it.mapFromScene T a)) idxs
        w.items) = w.items :=
    applyAll_roundtrip _ _ idxs w.items ItemOK hnd hrange hok
      (fun x hx => flipStep_inv T vert a x hx)
  show some { w with
      items := applyAll (fun it => it.do_flip T vert (it.mapFromScene T a))
        idxs (applyAll (fun it => it.do_flip T vert (it.mapFromScene T a))
          idxs w.items) } = some w
  rw [hrt]

theorem roundtrip_normalizeItems (T : TransformMap) (idxs : List Nat)
    (fs : List ℚ) (old : Option (List ℚ)) (w : World)
    (hlen : fs.length = idxs.length) (hfs : ∀ x ∈ fs, 0 < x)
    (hnd : idxs.Nodup) (hrange : ∀ i ∈ idxs, i < w.items.length)
    (hok : WorldOK w) :
    Command.undo T (Command.redo T (.normalizeItems idxs fs old) w).1
      (Command.redo T (.normalizeItems idxs fs old) w).2 = some w := by
  have hmf : (idxs.zip fs).map Prod.fst = idxs :=
    List.map_fst_zip idxs fs (le_of_eq hlen.symm)
  have hms : (idxs.zip fs).map Prod.snd = fs :=
    List.map_snd_zip idxs fs (le_of_eq hlen)
  have hrt := capFold_roundtrip (fun it => it.scale)
    (fun it k => it.setScaleAnchored T (it.scale * k) (it.width / 2, it.height / 2))
    (fun it c => it.setScaleAnchored T c (it.width / 2, it.height / 2))
    (idxs.zip fs) w.items ItemOK (by rw [hmf]; exact hnd)
    (fun pr hpr => hrange pr.1 (hmf ▸ List.mem_map_of_mem Prod.fst hpr))
    hok
    (fun x p hp hx => by
      have hkp : 0 < p := hfs p (hms ▸ hp)
      exact ⟨by
          rw [scale_setScaleAnchored T x _ _ (mul_pos hx.1 hkp)]
          exact mul_pos hx.1 hkp,
        by rw [flip_setScaleAnchored]; exact hx.2⟩)
    (fun x p hp hx => by
      have hkp : 0 < p := hfs p (hms ▸ hp)
      simp only []
      rw [width_setScaleAnchored, height_setScaleAnchored]
      exact setScale_setScale T x (x.scale * p) (x.width / 2, x.height / 2)
        (mul_pos hx.1 hkp) hx.1)
  rw [hmf] at hrt
  show some { w with
      items := undoFold
        (fun it c => it.setScaleAnchored T c (it.width / 2, it.height / 2))
        (idxs.zip (capFold (fun it => it.scale)
          (fun it k =>
            it.setScaleAnchored T (it.scale * k) (it.width / 2, it.height / 2))
          (idxs.zip fs) w.items).1)
        (capFold (fun it => it.scale)
          (fun it k =>
            it.setScaleAnchored T (it.scale * k) (it.width / 2, it.height / 2))
          (idxs.zip fs) w.items).2 } = some w
  rw [hrt]

theorem roundtrip_resetScale (T : TransformMap) (idxs : List Nat)
    (old : Option (List ℚ)) (w : World) (hnd : idxs.Nodup)
    (hrange : ∀ i ∈ idxs, i < w.items.length) (hok : WorldOK w) :
    Command.undo T (Command.redo T (.resetScale idxs old) w).1
      (Command.redo T (.resetScale idxs old) w).2 = some w := by
  have hmf : ((idxs.map fun i => ((i, ()) : Nat × Unit)).map Prod.fst) = idxs := by
    rw [List.map_map]
    have hcomp : (Prod.fst ∘ fun i => ((i, ()) : Nat × Unit)) = id := rfl
    rw [hcomp, List.map_id]
  have hrt := capFold_roundtrip (fun it => it.scale)
    (fun it _ => it.setScaleAnchored T 1 it.center)
    (fun it c => it.setScaleAnchored T c it.center)
    (idxs.map fun i => (i, ())) w.items ItemOK (by rw [hmf]; exact hnd)
    (fun pr hpr => by
      rcases List.mem_map.mp hpr with ⟨i, hi, rfl⟩
      exact hrange i hi)
    hok
    (fun x p _ hx =>
      ⟨by rw [scale_setScaleAnchored T x 1 _ one_pos]; exact one_pos,
        by rw [flip_setScaleAnchored]; exact hx.2⟩)
    (fun x p _ hx => by
      simp only []
      rw [center_setScaleAnchored]
      exact setScale_setScale T x 1 x.center one_pos hx.1)
  rw [hmf] at hrt
  show some { w with
      items := undoFold (fun it c => it.setScaleAnchored T c it.center)
        (idxs.zip (capFold (fun it => it.scale)
          (fun it _ => it.setScaleAnchored T 1 it.center)
          (idxs.map fun i => (i, ())) w.items).1)
        (capFold (fun it => it.scale)
          (fun it _ => it.setScaleAnchored T 1 it.center)
          (idxs.map fun i => (i, ())) w.items).2 } = some w
  rw [hrt]

theorem roundtrip_resetRotation (T : TransformMap) (idxs : List Nat)
    (old : Option (List ℚ)) (w : World) (hnd : idxs.Nodup)
    (hrange : ∀ i ∈ idxs, i < w.items.length) (hok : WorldOK w) :
    Command.undo T (Command.redo T (.resetRotation idxs old) w).1
      (Command.redo T (.resetRotation idxs old) w).2 = some w := by
  have hmf : ((idxs.map fun i => ((i, ()) : Nat × Unit)).map Prod.fst) = idxs := by
    rw [List.map_map]
    have hcomp : (Prod.fst ∘ fun i => ((i, ()) : Nat × Unit)) = id := rfl
    rw [hcomp, List.map_id]
  have hrt := capFold_roundtrip (fun it => it.rotation)
    (fun it _ => it.setRotationAnchored T 0 it.center)
    (fun it c => it.setRotationAnchored T c it.center)
    (idxs.map fun i => (i, ())) w.items ItemOK (by rw [hmf]; exact hnd)
    (fun pr hpr => by
      rcases List.mem_map.mp hpr with ⟨i, hi, rfl⟩
      exact hrange i hi)
    hok
    (fun x p _ hx =>
      ⟨by rw [scale_setRotationAnchored]; exact hx.1,
        by rw [flip_setRotationAnchored]; exact hx.2⟩)
    (fun x p _ hx => by
      simp only []
      rw [center_setRotationAnchored]
      exact setRotation_setRotation T x 0 x.center)
  rw [hmf] at hrt
  show some { w with
      items := undoFold (fun it c => it.setRotationAnchored T c it.center)
        (idxs.zip (capFold (fun it => it.rotation)
          (fun it _ => it.setRotationAnchored T 0 it.center)
          (idxs.map fun i => (i, ())) w.items).1)
        (capFold (fun it => it.rotation)
          (fun it _ => it.setRotationAnchored T 0 it.center)
          (idxs.map fun i => (i, ())) w.items).2 } = some w
  rw [hrt]

theorem roundtrip_resetFlip (T : TransformMap) (idxs : List Nat)
    (old : Option (List ℤ)) (w : World) (hnd : idxs.Nodup)
    (hrange : ∀ i ∈ idxs, i < w.items.length) (hok : WorldOK w) :
    Command.undo T (Command.redo T (.resetFlip idxs old) w).1
      (Command.redo T (.resetFlip idxs old) w).2 = some w := by
  have hmf : ((idxs.map fun i => ((i, ()) : Nat × Unit)).map Prod.fst) = idxs := by
    rw [List.map_map]
    have hcomp : (Prod.fst ∘ fun i => ((i, ()) : Nat × Unit)) = id := rfl
    rw [hcomp, List.map_id]
  have hrt := capFold_roundtrip (fun it => it.flip)
    (fun it _ => resetFlipStep T it)
    (fun it c => if c = -1 then it.do_flip T false it.center else it)
    (idxs.map fun i => (i, ())) w.items ItemOK (by rw [hmf]; exact hnd)
    (fun pr hpr => by
      rcases List.mem_map.mp hpr with ⟨i, hi, rfl⟩
      exact hrange i hi)
    hok
    (fun x p _ hx => resetFlipStep_ok T x hx)
    (fun x p _ _ => resetFlipStep_inv T x)
  rw [hmf] at hrt
  show some { w with
      items := undoFold
        (fun it c => if c = -1 then it.do_flip T false it.center else it)
        (idxs.zip (capFold (fun it => it.flip) (fun it _ => resetFlipStep T it)
          (idxs.map fun i => (i, ())) w.items).1)
        (capFold (fun it => it.flip) (fun it _ => resetFlipStep T it)
          (idxs.map fun i => (i, ())) w.items).2 } = some w
  rw [hrt]

theorem roundtrip_resetTransforms (T : TransformMap) (idxs : List Nat)
    (old : Option (List OldTransform)) (w : World) (hnd : idxs.Nodup)
    (hrange : ∀ i ∈ idxs, i < w.items.length) (hok : WorldOK w) :
    Command.undo T (Command.redo T (.resetTransforms idxs old) w).1
      (Command.redo T (.resetTransforms idxs old) w).2 = some w := by
  have hmf : ((idxs.map fun i => ((i, ()) : Nat × Unit)).map Prod.fst) = idxs := by
    rw [List.map_map]
    have hcomp : (Prod.fst ∘ fun i => ((i, ()) : Nat × Unit)) = id := rfl
    rw [hcomp, List.map_id]
  have hrt := capFold_roundtrip
    (fun it => OldTransform.mk it.scale it.rotation it.flip)
    (fun it _ => resetTransformsStep T it)
    (fun it o => undoTransformsStep T o it)
    (idxs.map fun i => (i, ())) w.items ItemOK (by rw [hmf]; exact hnd)
    (fun pr hpr => by
      rcases List.mem_map.mp hpr with ⟨i, hi, rfl⟩
      exact hrange i hi)
    hok
    (fun x p _ hx => resetTransformsStep_ok T x hx)
    (fun x p _ hx => resetTransformsStep_inv T x hx)
  rw [hmf] at hrt
  show some { w with
      items := undoFold (fun it o => undoTransformsStep T o it)
        (idxs.zip (capFold
          (fun it => OldTransform.mk it.scale it.rotation it.flip)
          (fun it _ => resetTransformsStep T it)
          (idxs.map fun i => (i, ())) w.items).1)
        (capFold (fun it => OldTransform.mk it.scale it.rotation it.flip)
          (fun it _ => resetTransformsStep T it)
          (idxs.map fun i => (i, ())) w.items).2 } = some w
  rw [hrt]

theorem roundtrip_insertItems (T : TransformMap) (idxs : List Nat) (w : World)
    (hnd : idxs.Nodup) (hout : ∀ i ∈ idxs, (w.getItem i).inScene = false) :
    ∃ w2, Command.undo T (Command.redo T (.insertItems idxs false) w).1
        (Command.redo T (.insertItems idxs false) w).2 = some w2 ∧
      w2.notices = w.notices ∧ w2.items.length = w.items.length ∧
      ∀ j, j < w.items.length → ItemAgrees (w2.getItem j) (w.getItem j) := by
  refine ⟨{ w with
      items := applyAll (fun it => { it with inScene := false }) idxs
        (clearSel (applyAll
          (fun it => { it with inScene := true, selected := true }) idxs
          (clearSel w.items))) }, rfl, rfl, ?_, ?_⟩
  · simp [applyAll_length, clearSel_length]
  · intro j hj
    have h1 : j < (clearSel w.items).length := by
      simpa [clearSel_length] using hj
    have h2 : j < (applyAll
        (fun it => { it with inScene := true, selected := true }) idxs
        (clearSel w.items)).length := by
      simpa [applyAll_length, clearSel_length] using hj
    have h3 : j < (clearSel (applyAll
        (fun it => { it with inScene := true, selected := true }) idxs
        (clearSel w.items))).length := by
      simpa [applyAll_length, clearSel_length] using hj
    simp only [World.getItem]
    by_cases hmem : j ∈ idxs
    · rw [applyAll_getD_mem _ _ _ _ _ hnd hmem h3, getD_clearSel _ _ _ h2,
        applyAll_getD_mem _ _ _ _ _ hnd hmem h1, getD_clearSel _ _ _ hj]
      have hjout : (w.items.getD j default).inScene = false := hout j hmem
      exact ⟨rfl, rfl, rfl, rfl, hjout.symm⟩
    · rw [applyAll_getD_notin _ _ _ _ _ hmem, getD_clearSel _ _ _ h2,
        applyAll_getD_notin _ _ _ _ _ hmem, getD_clearSel _ _ _ hj]
      exact ⟨rfl, rfl, rfl, rfl, rfl⟩

theorem roundtrip_deleteItems (T : TransformMap) (idxs : List Nat) (w : World)
    (hnd : idxs.Nodup) (hin : ∀ i ∈ idxs, (w.getItem i).inScene = true) :
    ∃ w2, Command.undo T (Command.redo T (.deleteItems idxs) w).1
        (Command.redo T (.deleteItems idxs) w).2 = some w2 ∧
      w2.notices = w.notices ∧ w2.items.length = w.items.length ∧
      ∀ j, j < w.items.length → ItemAgrees (w2.getItem j) (w.getItem j) := by
  refine ⟨{ w with
      items := applyAll (fun it => { it with selected := true, inScene := true })
        idxs (clearSel (applyAll (fun it => { it with inScene := false }) idxs
          w.items)) }, rfl, rfl, ?_, ?_⟩
  · simp [applyAll_length, clearSel_length]
  · intro j hj
    have h2 : j < (applyAll (fun it => { it with inScene := false }) idxs
        w.items).length := by
      simpa [applyAll_length] using hj
    have h3 : j < (clearSel (applyAll (fun it => { it with inScene := false })
        idxs w.items)).length := by
      simpa [applyAll_length, clearSel_length] using hj
    simp only [World.getItem]
    by_cases hmem : j ∈ idxs
    · rw [applyAll_getD_mem _ _ _ _ _ hnd hmem h3, getD_clearSel _ _ _ h2,
        applyAll_getD_mem _ _ _ _ _ hnd hmem hj]
      have hjin : (w.items.getD j default).inScene = true := hin j hmem
      exact ⟨rfl, rfl, rfl, rfl, hjin.symm⟩
    · rw [applyAll_getD_notin _ _ _ _ _ hmem, getD_clearSel _ _ _ h2,
        applyAll_getD_notin _ _ _ _ _ hmem]
      exact ⟨rfl, rfl, rfl, rfl, rfl⟩

/-- C1 (amended): round trip of every command kind under the replay
preconditions (flag clear, distinct valid item references, positive scale
factors, spec item invariant, inserted items initially absent and deleted
items initially present): redo() followed by undo() succeeds and restores
every item's position, scale, rotation, flip and scene membership; every
kind other than InsertItems and DeleteItems restores the selection
(indeed the whole world state) as well. -/
theorem command_redo_undo_roundtrip (T : TransformMap) (c : Command)
    (w : World) (hok : WorldOK w) (hpre : RoundtripPre c w) :
    ∃ w2, Command.undo T (Command.redo T c w).1 (Command.redo T c w).2 =
        some w2 ∧
      w2.notices = w.notices ∧ w2.items.length = w.items.length ∧
      (∀ j, j < w.items.length → ItemAgrees (w2.getItem j) (w.getItem j)) ∧
      (c.isGeometry = true → w2 = w) := by
  cases c with
  | insertItems idxs fl =>
    obtain ⟨hfl, hnd, hb⟩ := hpre
    subst hfl
    obtain ⟨w2, h1, h2, h3, h4⟩ :=
      roundtrip_insertItems T idxs w hnd (fun i hi => (hb i hi).2)
    exact ⟨w2, h1, h2, h3, h4, fun h => by simp [Command.isGeometry] at h⟩
  | deleteItems idxs =>
    obtain ⟨hnd, hb⟩ := hpre
    obtain ⟨w2, h1, h2, h3, h4⟩ :=
      roundtrip_deleteItems T idxs w hnd (fun i hi => (hb i hi).2)
    exact ⟨w2, h1, h2, h3, h4, fun h => by simp [Command.isGeometry] at h⟩
  | moveItemsBy idxs d fl =>
    obtain ⟨hfl, hnd, hr⟩ := hpre
    subst hfl
    exact ⟨w, roundtrip_moveItemsBy T idxs d w hnd hr, rfl, rfl,
      fun j _ => ItemAgrees.refl _, fun _ => rfl⟩
  | scaleItemsBy idxs k a fl =>
    obtain ⟨hfl, hk, hnd, hr⟩ := hpre
    subst hfl
    exact ⟨w, roundtrip_scaleItemsBy T idxs k a w hk hnd hr hok, rfl, rfl,
      fun j _ => ItemAgrees.refl _, fun _ => rfl⟩
  | rotateItemsBy idxs d a fl =>
    obtain ⟨hfl, hnd, hr⟩ := hpre
    subst hfl
    exact ⟨w, roundtrip_rotateItemsBy T idxs d a w hnd hr hok, rfl, rfl,
      fun j _ => ItemAgrees.refl _, fun _ => rfl⟩
  | normalizeItems idxs fs old =>
    obtain ⟨hlen, hfs, hnd, hr⟩ := hpre
    exact ⟨w, roundtrip_normalizeItems T idxs fs old w hlen hfs hnd hr hok,
      rfl, rfl, fun j _ => ItemAgrees.refl _, fun _ => rfl⟩
  | flipItems idxs a vert =>
    obtain ⟨hnd, hr⟩ := hpre
    exact ⟨w, roundtrip_flipItems T idxs a vert w hnd hr hok, rfl, rfl,
      fun j _ => ItemAgrees.refl _, fun _ => rfl⟩
  | resetScale idxs old =>
    obtain ⟨hnd, hr⟩ := hpre
    exact ⟨w, roundtrip_resetScale T idxs old w hnd hr hok, rfl, rfl,
      fun j _ => ItemAgrees.refl _, fun _ => rfl⟩
  | resetRotation idxs old =>
    obtain ⟨hnd, hr⟩ := hpre
    exact ⟨w, roundtrip_resetRotation T idxs old w hnd hr hok, rfl, rfl,
      fun j _ => ItemAgrees.refl _, fun _ => rfl⟩
  | resetFlip idxs old =>
    obtain ⟨hnd, hr⟩ := hpre
    exact ⟨w, roundtrip_resetFlip T idxs old w hnd hr hok, rfl, rfl,
      fun j _ => ItemAgrees.refl _, fun _ => rfl⟩
  | resetTransforms idxs old =>
    obtain ⟨hnd, hr⟩ := hpre
    exact ⟨w, roundtrip_resetTransforms T idxs old w hnd hr hok, rfl, rfl,
      fun j _ => ItemAgrees.refl _, fun _ => rfl⟩

/-- The concrete scale-and-flip instance of the scene↔local mapping (the
exact transform of an unrotated item, which is representable over `ℚ`):
scale both axes by `s`, then mirror the x-axis by the flip sign. -/
def axisTransformMap : TransformMap where
  fwd := fun s _ f p => (s * (f : ℚ) * p.1, s * p.2)
  inv := fun s _ f p => (p.1 / (s * (f : ℚ)), p.2 / s)
  inv_fwd := by
    intro s r f p hs hf
    obtain ⟨p1, p2⟩ := p
    have hsne : s ≠ 0 := ne_of_gt hs
    simp only []
    rcases hf with h | h <;> subst h
    · push_cast
      rw [mul_one, Prod.mk.injEq]
      exact ⟨mul_div_cancel_left₀ p1 hsne, mul_div_cancel_left₀ p2 hsne⟩
    · push_cast
      have h2 : s * (-1 : ℚ) ≠ 0 := mul_ne_zero hsne (by norm_num)
      rw [Prod.mk.injEq]
      exact ⟨mul_div_cancel_left₀ p1 h2, mul_div_cancel_left₀ p2 hsne⟩
  fwd_inv := by
    intro s r f p hs hf
    obtain ⟨p1, p2⟩ := p
    have hsne : s ≠ 0 := ne_of_gt hs
    simp only []
    rcases hf with h | h <;> subst h
    · push_cast
      rw [mul_one, Prod.mk.injEq]
      exact ⟨by rw [mul_comm]; exact div_mul_cancel₀ p1 hsne,
        by rw [mul_comm]; exact div_mul_cancel₀ p2 hsne⟩
    · push_cast
      have h2 : s * (-1 : ℚ) ≠ 0 := mul_ne_zero hsne (by norm_num)
      rw [Prod.mk.injEq]
      exact ⟨by rw [mul_comm]; exact div_mul_cancel₀ p1 h2,
        by rw [mul_comm]; exact div_mul_cancel₀ p2 hsne⟩

/-- The five commands that capture per-item undo state inside `redo()`. -/
def Command.isCapture : Command → Bool
  | .normalizeItems _ _ _ => true
  | .resetScale _ _ => true
  | .resetRotation _ _ => true
  | .resetFlip _ _ => true
  | .resetTransforms _ _ => true
  | _ => false

/-- Whether a capture command's captured-state attribute is still unset
(in Python: no `redo()` has assigned it yet). -/
def Command.capturedUnset : Command → Bool
  | .normalizeItems _ _ old => old.isNone
  | .resetScale _ old => old.isNone
  | .resetRotation _ old => old.isNone
  | .resetFlip _ old => old.isNone
  | .resetTransforms _ old => old.isNone
  | _ => false

/-- The item references a command holds. -/
def Command.cmdIdxs : Command → List Nat
  | .insertItems idxs _ => idxs
  | .deleteItems idxs => idxs
  | .moveItemsBy idxs _ _ => idxs
  | .scaleItemsBy idxs _ _ _ => idxs
  | .rotateItemsBy idxs _ _ _ => idxs
  | .normalizeItems idxs _ _ => idxs
  | .flipItems idxs _ _ => idxs
  | .resetScale idxs _ => idxs
  | .resetRotation idxs _ => idxs
  | .resetFlip idxs _ => idxs
  | .resetTransforms idxs _ => idxs

/-- NormalizeItems is well formed when it has one factor per item. -/
def Command.wellFormed : Command → Prop
  | .normalizeItems idxs fs _ => fs.length = idxs.length
  | _ => True

/-- The command as it stands after a `redo()` call in world `w`: the
baseline attribute holds the referenced items' current values, read from
`w` at execution time, regardless of what the attribute held before. -/
def Command.recapture (c : Command) (w : World) : Command :=
  match c with
  | .normalizeItems idxs fs _ =>
    .normalizeItems idxs fs
      (some ((idxs.zip fs).map fun pr => (w.getItem pr.1).scale))
  | .resetScale idxs _ =>
    .resetScale idxs (some (idxs.map fun i => (w.getItem i).scale))
  | .resetRotation idxs _ =>
    .resetRotation idxs (some (idxs.map fun i => (w.getItem i).rotation))
  | .resetFlip idxs _ =>
    .resetFlip idxs (some (idxs.map fun i => (w.getItem i).flip))
  | .resetTransforms idxs _ =>
    .resetTransforms idxs
      (some (idxs.map fun i =>
        OldTransform.mk (w.getItem i).scale (w.getItem i).rotation
          (w.getItem i).flip))
  | c => c

/-- The four commands that take an `ignore_first_redo` flag. -/
def Command.hasFlag : Command → Bool
  | .insertItems _ _ => true
  | .moveItemsBy _ _ _ => true
  | .scaleItemsBy _ _ _ _ => true
  | .rotateItemsBy _ _ _ _ => true
  | _ => false

/-- Overwrite the `ignore_first_redo` flag of a flag-carrying command. -/
def Command.setFlag : Command → Bool → Command
  | .insertItems idxs _, b => .insertItems idxs b
  | .moveItemsBy idxs d _, b => .moveItemsBy idxs d b
  | .scaleItemsBy idxs k a _, b => .scaleItemsBy idxs k a b
  | .rotateItemsBy idxs d a _, b => .rotateItemsBy idxs d a b
  | c, _ => c

/-- The world transformation a flag command's redo loop performs when it
is not suppressed. -/
def Command.fullEffect (T : TransformMap) : Command → World → World
  | .insertItems idxs _, w =>
    { w with
      items := applyAll (fun it => { it with inScene := true, selected := true })
        idxs (clearSel w.items) }
  | .moveItemsBy idxs d _, w =>
    { w with items := applyAll (fun it => it.moveBy d.1 d.2) idxs w.items }
  | .scaleItemsBy idxs k a _, w =>
    { w with
      items := applyAll
        (fun it => it.setScaleAnchored T (it.scale * k) (it.mapFromScene T a))
        idxs w.items }
  | .rotateItemsBy idxs d a _, w =>
    { w with
      items := applyAll
        (fun it =>
          it.setRotationAnchored T (it.rotation + d * (it.flip : ℚ))
            (it.mapFromScene T a))
        idxs w.items }
  | _, w => w

instance : DecidablePred ItemOK := fun it =>
  decidable_of_iff (0 < it.scale ∧ (it.flip = 1 ∨ it.flip = -1)) Iff.rfl

instance : DecidablePred WorldOK := fun w =>
  decidable_of_iff (∀ it ∈ w.items, ItemOK it) Iff.rfl

theorem scale_resetFlipStep (T : TransformMap) (x : Item) :
    (resetFlipStep T x).scale = x.scale := by
  unfold resetFlipStep
  split <;> rfl

theorem rotation_resetFlipStep (T : TransformMap) (x : Item) :
    (resetFlipStep T x).rotation = x.rotation := by
  unfold resetFlipStep
  split <;> rfl

theorem flip_resetFlipStep (T : TransformMap) (x : Item) :
    (resetFlipStep T x).flip = if x.flip = -1 then 1 else x.flip := by
  unfold resetFlipStep
  by_cases h : x.flip = -1
  · rw [if_pos h, if_pos h, flip_do_flip, h]
    norm_num
  · rw [if_neg h, if_neg h]

/-- Values ResetTransforms.redo leaves in a single item: unit scale, zero
rotation, un-mirrored flip. -/
theorem resetTransformsStep_values (T : TransformMap) (x : Item) :
    (resetTransformsStep T x).scale = 1 ∧
      (resetTransformsStep T x).rotation = 0 ∧
      (resetTransformsStep T x).flip = (if x.flip = -1 then 1 else x.flip) := by
  unfold resetTransformsStep
  refine ⟨?_, ?_, ?_⟩
  · rw [scale_resetFlipStep, scale_setRotationAnchored,
      scale_setScaleAnchored T x 1 _ one_pos]
  · rw [rotation_resetFlipStep, rotation_setRotationAnchored]
  · rw [flip_resetFlipStep, flip_setRotationAnchored, flip_setScaleAnchored]

/-- C4 (amended): every capture command's redo() gathers its baseline
from the world at execution time — inside redo(), not at construction —
and assigns it unconditionally: the result is independent of whatever the
baseline attribute held before the call, so a second redo() without an
intervening undo() overwrites the first capture. -/
theorem capture_on_redo (T : TransformMap) (c : Command) (w : World)
    (hc : c.isCapture = true) (hnd : c.cmdIdxs.Nodup) (hwf : c.wellFormed) :
    (Command.redo T c w).1 = Command.recapture c w := by
  cases c with
  | normalizeItems idxs fs old =>
    have hlen : fs.length = idxs.length := hwf
    have hmf : (idxs.zip fs).map Prod.fst = idxs :=
      List.map_fst_zip idxs fs (le_of_eq hlen.symm)
    have hnd2 : ((idxs.zip fs).map Prod.fst).Nodup := by
      rw [hmf]
      exact hnd
    simp only [Command.redo, Command.recapture]
    rw [capFold_fst_eq _ _ _ _ hnd2]
    rfl
  | resetScale idxs old =>
    have hnd2 : ((idxs.map fun i => ((i, ()) : Nat × Unit)).map Prod.fst).Nodup := by
      rw [List.map_map]
      have hcomp : (Prod.fst ∘ fun i => ((i, ()) : Nat × Unit)) = id := rfl
      rw [hcomp, List.map_id]
      exact hnd
    simp only [Command.redo, Command.recapture]
    rw [capFold_fst_eq _ _ _ _ hnd2, List.map_map]
    rfl
  | resetRotation idxs old =>
    have hnd2 : ((idxs.map fun i => ((i, ()) : Nat × Unit)).map Prod.fst).Nodup := by
      rw [List.map_map]
      have hcomp : (Prod.fst ∘ fun i => ((i, ()) : Nat × Unit)) = id := rfl
      rw [hcomp, List.map_id]
      exact hnd
    simp only [Command.redo, Command.recapture]
    rw [capFold_fst_eq _ _ _ _ hnd2, List.map_map]
    rfl
  | resetFlip idxs old =>
    have hnd2 : ((idxs.map fun i => ((i, ()) : Nat × Unit)).map Prod.fst).Nodup := by
      rw [List.map_map]
      have hcomp : (Prod.fst ∘ fun i => ((i, ()) : Nat × Unit)) = id := rfl
      rw [hcomp, List.map_id]
      exact hnd
    simp only [Command.redo, Command.recapture]
    rw [capFold_fst_eq _ _ _ _ hnd2, List.map_map]
    rfl
  | resetTransforms idxs old =>
    have hnd2 : ((idxs.map fun i => ((i, ()) : Nat × Unit)).map Prod.fst).Nodup := by
      rw [List.map_map]
      have hcomp : (Prod.fst ∘ fun i => ((i, ()) : Nat × Unit)) = id := rfl
      rw [hcomp, List.map_id]
      exact hnd
    simp only [Command.redo, Command.recapture]
    rw [capFold_fst_eq _ _ _ _ hnd2, List.map_map]
    rfl
  | insertItems idxs fl => simp [Command.isCapture] at hc
  | deleteItems idxs => simp [Command.isCapture] at hc
  | moveItemsBy idxs d fl => simp [Command.isCapture] at hc
  | scaleItemsBy idxs k a fl => simp [Command.isCapture] at hc
  | rotateItemsBy idxs d a fl => simp [Command.isCapture] at hc
  | flipItems idxs a vert => simp [Command.isCapture] at hc

/-- C6: a command constructed with `ignore_first_redo=True` has a first
redo() that changes neither the items nor the scene and only clears the
flag; once the flag is clear every redo() applies the full effect. -/
theorem ignore_first_redo_semantics (T : TransformMap) (c : Command)
    (w w2 : World) (hc : c.hasFlag = true) :
    Command.redo T (c.setFlag true) w = (c.setFlag false, w) ∧
    Command.redo T (c.setFlag false) w2 =
      (c.setFlag false, Command.fullEffect T c w2) := by
  cases c <;> first
    | exact ⟨rfl, rfl⟩
    | simp [Command.hasFlag] at hc

/-- C10: calling undo() on a capture command whose baseline attribute was
never assigned (no redo() has run) fails — the `zip` argument lookup
raises AttributeError before the loop body can touch any item — rather
than acting as a silent no-op. -/
theorem undo_before_redo_raises (T : TransformMap) (c : Command) (w : World)
    (hc : c.isCapture = true) (hu : c.capturedUnset = true) :
    Command.undo T c w = none := by
  cases c with
  | normalizeItems idxs fs old =>
    cases old with
    | none => rfl
    | some olds => simp [Command.capturedUnset] at hu
  | resetScale idxs old =>
    cases old with
    | none => rfl
    | some olds => simp [Command.capturedUnset] at hu
  | resetRotation idxs old =>
    cases old with
    | none => rfl
    | some olds => simp [Command.capturedUnset] at hu
  | resetFlip idxs old =>
    cases old with
    | none => rfl
    | some olds => simp [Command.capturedUnset] at hu
  | resetTransforms idxs old =>
    cases old with
    | none => rfl
    | some olds => simp [Command.capturedUnset] at hu
  | insertItems idxs fl => simp [Command.isCapture] at hc
  | deleteItems idxs => simp [Command.isCapture] at hc
  | moveItemsBy idxs d fl => simp [Command.isCapture] at hc
  | scaleItemsBy idxs k a fl => simp [Command.isCapture] at hc
  | rotateItemsBy idxs d a fl => simp [Command.isCapture] at hc
  | flipItems idxs a vert => simp [Command.isCapture] at hc

/-- C9 (amended): RotateItemsBy performs no scene notification — it holds
no scene reference at all — so the scene's notification count is
untouched by both redo() and undo(). -/
theorem rotate_no_notification (T : TransformMap) (idxs : List Nat) (d : ℚ)
    (a : ℚ × ℚ) (fl : Bool) (w : World) :
    ((Command.redo T (.rotateItemsBy idxs d a fl) w).2).notices = w.notices ∧
    ∃ w2, Command.undo T (.rotateItemsBy idxs d a fl) w = some w2 ∧
      w2.notices = w.notices := by
  refine ⟨?_, ⟨_, rfl, rfl⟩⟩
  cases fl <;> rfl

/-- C2 (amended): ScaleItemsBy stores no captured state — redo() returns
the command unchanged — and its undo(), which scales by the reciprocal
factor around the same scene anchor, restores every item (scale and
position) exactly. -/
theorem scaleItems_stateless_roundtrip (T : TransformMap) (idxs : List Nat)
    (k : ℚ) (a : ℚ × ℚ) (w : World) (hk : 0 < k) (hnd : idxs.Nodup)
    (hrange : ∀ i ∈ idxs, i < w.items.length) (hok : WorldOK w) :
    (Command.redo T (.scaleItemsBy idxs k a false) w).1 =
      .scaleItemsBy idxs k a false ∧
    Command.undo T (.scaleItemsBy idxs k a false)
      (Command.redo T (.scaleItemsBy idxs k a false) w).2 = some w :=
  ⟨rfl, roundtrip_scaleItemsBy T idxs k a w hk hnd hrange hok⟩

/-- C5 (amended): `BeePixmapItem.setScale` from src/beeref/items.py
performs no validation: every factor, non-positive ones included, is
accepted and stored as the new scale, the position is untouched, and no
error path exists. -/
theorem setScale_unvalidated (it : BeePixmapItem) (factor : ℚ) :
    (it.setScale factor).scale_factor = factor ∧
    (it.setScale factor).base_scale = factor ∧
    (it.setScale factor).pos = it.pos :=
  ⟨rfl, rfl, rfl⟩

/-- C7: RotateItemsBy.redo adds `delta * flip` to each referenced item's
rotation; rotating by `+d` and then by `-d` (two commands around the same
anchor) returns every item — in particular every mirrored item — to its
original rotation value. -/
theorem rotate_adds_flip_compensated (T : TransformMap) (idxs : List Nat)
    (d : ℚ) (a : ℚ × ℚ) (w : World) (hnd : idxs.Nodup)
    (hrange : ∀ i ∈ idxs, i < w.items.length) :
    (∀ j ∈ idxs,
      (((Command.redo T (.rotateItemsBy idxs d a false) w).2).getItem j).rotation =
        (w.getItem j).rotation + d * ((w.getItem j).flip : ℚ)) ∧
    (∀ j, j < w.items.length →
      (((Command.redo T (.rotateItemsBy idxs (-d) a false)
          (Command.redo T (.rotateItemsBy idxs d a false) w).2).2).getItem
            j).rotation =
        (w.getItem j).rotation) := by
  constructor
  · intro j hj
    show ((applyAll
        (fun it => it.setRotationAnchored T (it.rotation + d * (it.flip : ℚ))
          (it.mapFromScene T a)) idxs w.items).getD j default).rotation = _
    rw [applyAll_getD_mem _ _ _ _ _ hnd hj (hrange j hj)]
    rfl
  · intro j hj
    show ((applyAll
        (fun it => it.setRotationAnchored T (it.rotation + -d * (it.flip : ℚ))
          (it.mapFromScene T a)) idxs
        (applyAll
          (fun it => it.setRotationAnchored T (it.rotation + d * (it.flip : ℚ))
            (it.mapFromScene T a)) idxs w.items)).getD j default).rotation = _
    by_cases hmem : j ∈ idxs
    · have hlen1 : j < (applyAll
          (fun it => it.setRotationAnchored T (it.rotation + d * (it.flip : ℚ))
            (it.mapFromScene T a)) idxs w.items).length := by
        simpa [applyAll_length] using hj
      rw [applyAll_getD_mem _ _ _ _ _ hnd hmem hlen1,
        applyAll_getD_mem _ _ _ _ _ hnd hmem hj]
      show (w.items.getD j default).rotation +
          d * ((w.items.getD j default).flip : ℚ) +
          -d * ((w.items.getD j default).flip : ℚ) =
        (w.items.getD j default).rotation
      ring
    · rw [applyAll_getD_notin _ _ _ _ _ hmem,
        applyAll_getD_notin _ _ _ _ _ hmem]
      rfl

/-- C3 (amended): NormalizeItems.redo multiplies each item's scale by its
prescribed per-item factor (it does not set the scale to the factor), and
undo() restores each item's pre-normalize scale — indeed the whole world —
exactly. -/
theorem normalize_multiplies (T : TransformMap) (idxs : List Nat)
    (fs : List ℚ) (w : World) (hlen : fs.length = idxs.length)
    (hfs : ∀ x ∈ fs, 0 < x) (hnd : idxs.Nodup)
    (hrange : ∀ i ∈ idxs, i < w.items.length) (hok : WorldOK w) :
    (∀ kk, kk < idxs.length →
      (((Command.redo T (.normalizeItems idxs fs none) w).2).getItem
          (idxs.getD kk 0)).scale =
        (w.getItem (idxs.getD kk 0)).scale * fs.getD kk 1) ∧
    Command.undo T (Command.redo T (.normalizeItems idxs fs none) w).1
      (Command.redo T (.normalizeItems idxs fs none) w).2 = some w := by
  refine ⟨?_, roundtrip_normalizeItems T idxs fs none w hlen hfs hnd hrange hok⟩
  intro kk hkk
  have hkf : kk < fs.length := by rw [hlen]; exact hkk
  have hkzip : kk < (idxs.zip fs).length := by
    rw [List.length_zip]
    omega
  have hpk : (idxs.zip fs).getD kk (0, 1) = (idxs.getD kk 0, fs.getD kk 1) := by
    rw [List.getD_eq_getElem _ _ hkzip, List.getElem_zip,
      List.getD_eq_getElem _ _ hkk, List.getD_eq_getElem _ _ hkf]
  have hpk1 : ((idxs.zip fs).getD kk (0, 1)).1 = idxs.getD kk 0 := by
    rw [hpk]
  have hpk2 : ((idxs.zip fs).getD kk (0, 1)).2 = fs.getD kk 1 := by
    rw [hpk]
  have hnd2 : ((idxs.zip fs).map Prod.fst).Nodup := by
    rw [List.map_fst_zip idxs fs (le_of_eq hlen.symm)]
    exact hnd
  have hidx_mem : idxs.getD kk 0 ∈ idxs := by
    rw [List.getD_eq_getElem _ _ hkk]
    exact List.getElem_mem hkk
  have hrj : idxs.getD kk 0 < w.items.length := hrange _ hidx_mem
  have hcap := capFold_snd_getD_at (fun it => it.scale)
    (fun it k =>
      it.setScaleAnchored T (it.scale * k) (it.width / 2, it.height / 2))
    (idxs.zip fs) w.items kk (0, 1) default hnd2 hkzip (by rw [hpk1]; exact hrj)
  rw [hpk1, hpk2] at hcap
  show ((capFold (fun it => it.scale)
      (fun it k =>
        it.setScaleAnchored T (it.scale * k) (it.width / 2, it.height / 2))
      (idxs.zip fs) w.items).2.getD (idxs.getD kk 0) default).scale = _
  rw [hcap]
  have hfmem : fs.getD kk 1 ∈ fs := by
    rw [List.getD_eq_getElem _ _ hkf]
    exact List.getElem_mem hkf
  have hxok : ItemOK (w.items.getD (idxs.getD kk 0) default) := by
    refine hok _ ?_
    rw [List.getD_eq_getElem _ _ hrj]
    exact List.getElem_mem hrj
  exact scale_setScaleAnchored T _ _ _ (mul_pos hxok.1 (hfs _ hfmem))

/-- C8: ResetTransforms on an item with scale 2, rotation 45, flip -1
leaves scale 1, rotation 0, flip 1 after redo() (all anchored at the
item's center), and undo() — which re-applies the captured bundle in the
same scale → rotation → flip order as redo — restores all three prior
values together with the position. -/
theorem resetTransforms_single (T : TransformMap) (w : World) (i : Nat)
    (hi : i < w.items.length) (hok : WorldOK w)
    (h2 : (w.getItem i).scale = 2) (h45 : (w.getItem i).rotation = 45)
    (hfl : (w.getItem i).flip = -1) :
    (((Command.redo T (.resetTransforms [i] none) w).2).getItem i).scale = 1 ∧
    (((Command.redo T (.resetTransforms [i] none) w).2).getItem i).rotation = 0 ∧
    (((Command.redo T (.resetTransforms [i] none) w).2).getItem i).flip = 1 ∧
    Command.undo T (Command.redo T (.resetTransforms [i] none) w).1
      (Command.redo T (.resetTransforms [i] none) w).2 = some w := by
  have hstep : ((Command.redo T (.resetTransforms [i] none) w).2).getItem i =
      resetTransformsStep T (w.getItem i) := by
    show (updateAt w.items i (fun it => resetTransformsStep T it)).getD i
        default = _
    rw [getD_updateAt_self _ _ _ _ hi]
    rfl
  obtain ⟨hv1, hv2, hv3⟩ := resetTransformsStep_values T (w.getItem i)
  refine ⟨?_, ?_, ?_,
    roundtrip_resetTransforms T [i] none w (by simp)
      (fun x hx => by
        rw [List.mem_singleton] at hx
        exact hx ▸ hi) hok⟩
  · rw [hstep]
    exact hv1
  · rw [hstep]
    exact hv2
  · rw [hstep, hv3, if_pos hfl]

/-! Concrete sample states used by the witnesses and counterexamples. -/

/-- An item not yet in the scene (about to be inserted). -/
def itemOutside : Item :=
  { pos := (0, 0), scale := 1, rotation := 0, flip := 1, width := 100,
    height := 100, inScene := false, selected := false }

/-- A bystander item that is in the scene and currently selected. -/
def itemBystander : Item :=
  { pos := (10, 20), scale := 1, rotation := 0, flip := 1, width := 50,
    height := 50, inScene := true, selected := true }

/-- World with an insertable item 0 and a selected bystander item 1. -/
def insertWorld : World := { items := [itemOutside, itemBystander], notices := 0 }

/-- A scene item with scale factor 2. -/
def itemScale2 : Item :=
  { pos := (0, 0), scale := 2, rotation := 0, flip := 1, width := 100,
    height := 100, inScene := true, selected := false }

/-- World with the single scale-2 item. -/
def scaleWorld : World := { items := [itemScale2], notices := 0 }

/-- The same world with the item moved elsewhere. -/
def movedWorld : World :=
  { items := [{ itemScale2 with pos := (7, 9) }], notices := 0 }

/-- A mirrored item: scale 2, rotation 45, flip -1. -/
def itemMirrored : Item :=
  { pos := (3, 4), scale := 2, rotation := 45, flip := -1, width := 100,
    height := 100, inScene := true, selected := false }

/-- World with the single mirrored item. -/
def mirroredWorld : World := { items := [itemMirrored], notices := 0 }

/-- C1 counterexample: redo-then-undo of InsertItems does not restore the
initial state — the bystander item 1 was selected before, and after the
round trip (whose two clearSelection calls wiped the selection) it is
deselected.  So the claim's "restores S (... and selection) for every
command kind and every initial item state" fails at this input. -/
theorem claim1_counterexample :
    (Command.undo axisTransformMap
        (Command.redo axisTransformMap (.insertItems [0] false) insertWorld).1
        (Command.redo axisTransformMap (.insertItems [0] false) insertWorld).2).map
      (fun w2 => (w2.getItem 1).selected) = some false ∧
    (insertWorld.getItem 1).selected = true := by
  exact ⟨rfl, rfl⟩

/-- C2 counterexample: ScaleItemsBy captures nothing.  redo() returns the
command exactly as constructed — with no per-item original positions — in
two worlds whose item positions differ, so "captures each item's original
position before the first redo()" is false of the code. -/
theorem claim2_counterexample :
    (Command.redo axisTransformMap (.scaleItemsBy [0] 2 (0, 0) false)
        scaleWorld).1 = .scaleItemsBy [0] 2 (0, 0) false ∧
    (Command.redo axisTransformMap (.scaleItemsBy [0] 2 (0, 0) false)
        movedWorld).1 = .scaleItemsBy [0] 2 (0, 0) false := by
  exact ⟨rfl, rfl⟩

/-- C3 counterexample: NormalizeItems on an item of scale 2 with
prescribed factor 1/2 leaves scale 2 · 1/2 = 1, not the prescribed 1/2 —
redo() multiplies by the factor instead of setting the scale to it. -/
theorem claim3_counterexample :
    (((Command.redo axisTransformMap (.normalizeItems [0] [1 / 2] none)
        scaleWorld).2).getItem 0).scale = 1 ∧ ¬((1 : ℚ) = 1 / 2) := by
  constructor
  · show ((updateAt scaleWorld.items 0
        (fun it => it.setScaleAnchored axisTransformMap (it.scale * (1 / 2))
          (it.width / 2, it.height / 2))).getD 0 default).scale = 1
    rw [getD_updateAt_self _ _ _ _ (by decide)]
    have hsc : (scaleWorld.items.getD 0 default).scale = 2 := rfl
    rw [scale_setScaleAnchored _ _ _ _ (by rw [hsc]; norm_num), hsc]
    norm_num
  · norm_num

/-- C4 counterexample: a second redo() without an intervening undo() does
overwrite the captured baseline: the first redo captures [2], the second
captures [4] (the post-first-redo scale), losing the original value. -/
theorem claim4_counterexample :
    (Command.redo axisTransformMap (.normalizeItems [0] [2] none)
        scaleWorld).1 = .normalizeItems [0] [2] (some [2]) ∧
    (Command.redo axisTransformMap
        (Command.redo axisTransformMap (.normalizeItems [0] [2] none)
          scaleWorld).1
        (Command.redo axisTransformMap (.normalizeItems [0] [2] none)
          scaleWorld).2).1 = .normalizeItems [0] [2] (some [4]) ∧
    some [(4 : ℚ)] ≠ some [(2 : ℚ)] := by
  have hval : (((Command.redo axisTransformMap (.normalizeItems [0] [2] none)
      scaleWorld).2).items.getD 0 default).scale = 4 := by
    show ((updateAt scaleWorld.items 0
        (fun it => it.setScaleAnchored axisTransformMap (it.scale * 2)
          (it.width / 2, it.height / 2))).getD 0 default).scale = 4
    rw [getD_updateAt_self _ _ _ _ (by decide)]
    have hsc : (scaleWorld.items.getD 0 default).scale = 2 := rfl
    rw [scale_setScaleAnchored _ _ _ _ (by rw [hsc]; norm_num), hsc]
    norm_num
  refine ⟨rfl, ?_, by simp⟩
  show Command.normalizeItems [0] [2]
      (some [(((Command.redo axisTransformMap (.normalizeItems [0] [2] none)
        scaleWorld).2).items.getD 0 default).scale]) =
    Command.normalizeItems [0] [2] (some [4])
  rw [hval]

/-- C5 counterexample: `BeePixmapItem.setScale` accepts the non-positive
factor -1: no error is raised and the scale is changed to -1, refuting
"fails synchronously with InvalidParameter and leaves the scale
unchanged". -/
theorem claim5_counterexample :
    (BeePixmapItem.setScale ⟨1, 1, (0, 0)⟩ (-1)).scale_factor = -1 ∧
    ¬((0 : ℚ) < -1) := by
  exact ⟨rfl, by norm_num⟩

/-- C9 counterexample: RotateItemsBy.redo() issues no
onSelectionGeometryChanged notification: the scene's notification count is
still 0 after redo() at this concrete input. -/
theorem claim9_counterexample :
    ((Command.redo axisTransformMap (.rotateItemsBy [0] 90 (0, 0) false)
        scaleWorld).2).notices = scaleWorld.notices ∧
    scaleWorld.notices = 0 := by
  exact ⟨rfl, rfl⟩

/-- Witness for C1: the round-trip theorem applied to a concrete
ScaleItemsBy command on the concrete one-item world. -/
theorem claim1_witness :
    WorldOK scaleWorld ∧
    RoundtripPre (Command.scaleItemsBy [0] 2 (0, 0) false) scaleWorld ∧
    ∃ w2, Command.undo axisTransformMap
        (Command.redo axisTransformMap (.scaleItemsBy [0] 2 (0, 0) false)
          scaleWorld).1
        (Command.redo axisTransformMap (.scaleItemsBy [0] 2 (0, 0) false)
          scaleWorld).2 = some w2 ∧
      w2.notices = scaleWorld.notices ∧
      w2.items.length = scaleWorld.items.length ∧
      (∀ j, j < scaleWorld.items.length →
        ItemAgrees (w2.getItem j) (scaleWorld.getItem j)) ∧
      ((Command.scaleItemsBy [0] 2 (0, 0) false).isGeometry = true →
        w2 = scaleWorld) := by
  have hok : WorldOK scaleWorld := by decide
  have hpre : RoundtripPre (Command.scaleItemsBy [0] 2 (0, 0) false)
      scaleWorld := ⟨rfl, by norm_num, by decide, by decide⟩
  exact ⟨hok, hpre,
    command_redo_undo_roundtrip axisTransformMap _ scaleWorld hok hpre⟩

/-- Witness for C2: the stateless round trip applied to a concrete
ScaleItemsBy command. -/
theorem claim2_witness :
    (0 : ℚ) < 2 ∧ WorldOK scaleWorld ∧
    ((Command.redo axisTransformMap (.scaleItemsBy [0] 2 (0, 0) false)
        scaleWorld).1 = .scaleItemsBy [0] 2 (0, 0) false ∧
      Command.undo axisTransformMap (.scaleItemsBy [0] 2 (0, 0) false)
        (Command.redo axisTransformMap (.scaleItemsBy [0] 2 (0, 0) false)
          scaleWorld).2 = some scaleWorld) := by
  have hok : WorldOK scaleWorld := by decide
  exact ⟨by norm_num, hok,
    scaleItems_stateless_roundtrip axisTransformMap [0] 2 (0, 0) scaleWorld
      (by norm_num) (by decide) (by decide) hok⟩

/-- Witness for C3: the multiply-not-set theorem applied to the concrete
scale-2 item with prescribed factor 1/2. -/
theorem claim3_witness :
    WorldOK scaleWorld ∧
    ((∀ kk, kk < ([0] : List Nat).length →
      (((Command.redo axisTransformMap (.normalizeItems [0] [1 / 2] none)
          scaleWorld).2).getItem (([0] : List Nat).getD kk 0)).scale =
        (scaleWorld.getItem (([0] : List Nat).getD kk 0)).scale *
          ([(1 : ℚ) / 2]).getD kk 1) ∧
    Command.undo axisTransformMap
      (Command.redo axisTransformMap (.normalizeItems [0] [1 / 2] none)
        scaleWorld).1
      (Command.redo axisTransformMap (.normalizeItems [0] [1 / 2] none)
        scaleWorld).2 = some scaleWorld) := by
  have hok : WorldOK scaleWorld := by decide
  exact ⟨hok,
    normalize_multiplies axisTransformMap [0] [1 / 2] scaleWorld rfl
      (by norm_num) (by decide) (by decide) hok⟩

/-- Witness for C4: the capture-inside-redo theorem applied to a concrete
ResetScale command. -/
theorem claim4_witness :
    (Command.resetScale [0] none).isCapture = true ∧
    (Command.resetScale [0] none).cmdIdxs.Nodup ∧
    (Command.redo axisTransformMap (.resetScale [0] none) scaleWorld).1 =
      Command.recapture (.resetScale [0] none) scaleWorld := by
  exact ⟨rfl, by decide,
    capture_on_redo axisTransformMap (.resetScale [0] none) scaleWorld rfl
      (by decide) trivial⟩

/-- Witness for C6: the ignore-first-redo theorem applied to a concrete
MoveItemsBy command. -/
theorem claim6_witness :
    (Command.moveItemsBy [0] (5, 3) false).hasFlag = true ∧
    Command.redo axisTransformMap
        ((Command.moveItemsBy [0] (5, 3) false).setFlag true) scaleWorld =
      ((Command.moveItemsBy [0] (5, 3) false).setFlag false, scaleWorld) := by
  exact ⟨rfl,
    (ignore_first_redo_semantics axisTransformMap
      (.moveItemsBy [0] (5, 3) false) scaleWorld scaleWorld rfl).1⟩

/-- Witness for C7: the flip-compensated rotation theorem applied to the
concrete mirrored (flip = -1) item. -/
theorem claim7_witness :
    ([0] : List Nat).Nodup ∧
    ((∀ j ∈ ([0] : List Nat),
      (((Command.redo axisTransformMap (.rotateItemsBy [0] 90 (0, 0) false)
          mirroredWorld).2).getItem j).rotation =
        (mirroredWorld.getItem j).rotation +
          90 * ((mirroredWorld.getItem j).flip : ℚ)) ∧
    (∀ j, j < mirroredWorld.items.length →
      (((Command.redo axisTransformMap (.rotateItemsBy [0] (-90) (0, 0) false)
          (Command.redo axisTransformMap (.rotateItemsBy [0] 90 (0, 0) false)
            mirroredWorld).2).2).getItem j).rotation =
        (mirroredWorld.getItem j).rotation)) := by
  exact ⟨by decide,
    rotate_adds_flip_compensated axisTransformMap [0] 90 (0, 0) mirroredWorld
      (by decide) (by decide)⟩

/-- Witness for C8: the ResetTransforms scenario theorem applied to the
concrete item with scale 2, rotation 45, flip -1. -/
theorem claim8_witness :
    (mirroredWorld.getItem 0).scale = 2 ∧
    (mirroredWorld.getItem 0).rotation = 45 ∧
    (mirroredWorld.getItem 0).flip = -1 ∧
    ((((Command.redo axisTransformMap (.resetTransforms [0] none)
        mirroredWorld).2).getItem 0).scale = 1 ∧
      (((Command.redo axisTransformMap (.resetTransforms [0] none)
        mirroredWorld).2).getItem 0).rotation = 0 ∧
      (((Command.redo axisTransformMap (.resetTransforms [0] none)
        mirroredWorld).2).getItem 0).flip = 1 ∧
      Command.undo axisTransformMap
        (Command.redo axisTransformMap (.resetTransforms [0] none)
          mirroredWorld).1
        (Command.redo axisTransformMap (.resetTransforms [0] none)
          mirroredWorld).2 = some mirroredWorld) := by
  exact ⟨rfl, rfl, rfl,
    resetTransforms_single axisTransformMap mirroredWorld 0 (by decide)
      (by decide) rfl rfl rfl⟩

/-- Witness for C10: undo before any redo on a concrete NormalizeItems
command fails (returns the AttributeError marker). -/
theorem claim10_witness :
    (Command.normalizeItems [0] [2] none).isCapture = true ∧
    (Command.normalizeItems [0] [2] none).capturedUnset = true ∧
    Command.undo axisTransformMap (.normalizeItems [0] [2] none) scaleWorld =
      none := by
  exact ⟨rfl, rfl,
    undo_before_redo_raises axisTransformMap (.normalizeItems [0] [2] none)
      scaleWorld rfl rfl⟩
